import Mathlib

/-!
Verification of core algorithms of the sisyphus Kubernetes reconciliation
engine: the managed-field merger `copy_unmanaged_fields`
(src/kubernetes.rs), secret scrubbing `munge_secrets` (src/kubernetes.rs),
the diff engine `generate_diff` / `generate_single_diff` /
`requires_recreate` (src/generate_diff.rs), the apply executor's scope
validation `apply_diff` (src/apply_diff.rs), the confirmation prompt
`ask_for_user_permission` (src/main.rs), and image tag resolution
`resolve_image_tag` (src/registry_clients.rs).

JSON values (serde_json::Value) are modelled by the inductive `Json`;
serde_json maps are modelled as association lists of string keys, with
map insertion replacing the value of an existing key in place.  serde_json
numbers are modelled as integers (no claim depends on float semantics).
Fallible Rust functions returning anyhow::Result are modelled as
`Except String`.
-/

/-- Model of serde_json::Value.  Numbers are modelled as integers; objects
are association lists (one binding per key in any map produced by serde). -/
inductive Json where
  | null
  | bool (b : Bool)
  | num (n : Int)
  | str (s : String)
  | arr (elems : List Json)
  | obj (fields : List (String × Json))
  deriving Repr

namespace Json

mutual

def beqJ : Json → Json → Bool
  | .null, .null => true
  | .bool a, .bool b => a == b
  | .num a, .num b => a == b
  | .str a, .str b => a == b
  | .arr a, .arr b => beqL a b
  | .obj a, .obj b => beqF a b
  | _, _ => false

def beqL : List Json → List Json → Bool
  | [], [] => true
  | a :: as, b :: bs => beqJ a b && beqL as bs
  | _, _ => false

def beqF : List (String × Json) → List (String × Json) → Bool
  | [], [] => true
  | (ka, va) :: as, (kb, vb) :: bs => ka == kb && beqJ va vb && beqF as bs
  | _, _ => false

end

mutual

theorem beqJ_iff : ∀ a b : Json, beqJ a b = true ↔ a = b
  | .null, b => by cases b <;> simp [beqJ]
  | .bool x, b => by cases b <;> simp [beqJ]
  | .num x, b => by cases b <;> simp [beqJ]
  | .str x, b => by cases b <;> simp [beqJ]
  | .arr xs, b => by
    cases b <;> simp [beqJ]
    exact beqL_iff xs _
  | .obj xs, b => by
    cases b <;> simp [beqJ]
    exact beqF_iff xs _

theorem beqL_iff : ∀ a b : List Json, beqL a b = true ↔ a = b
  | [], b => by cases b <;> simp [beqL]
  | x :: xs, b => by
    cases b with
    | nil => simp [beqL]
    | cons y ys =>
      simp only [beqL, Bool.and_eq_true, beqJ_iff x y, beqL_iff xs ys, List.cons.injEq]

theorem beqF_iff : ∀ a b : List (String × Json), beqF a b = true ↔ a = b
  | [], b => by cases b <;> simp [beqF]
  | (k, v) :: xs, b => by
    cases b with
    | nil => simp [beqF]
    | cons y ys =>
      obtain ⟨k2, v2⟩ := y
      simp only [beqF, Bool.and_eq_true, beqJ_iff v v2, beqF_iff xs ys, List.cons.injEq,
        beq_iff_eq, Prod.mk.injEq]

end

instance : DecidableEq Json := fun a b =>
  decidable_of_iff (beqJ a b = true) (beqJ_iff a b)

end Json

/-- Lookup in an association-list map (serde_json::Map::get). -/
def jlookup : List (String × Json) → String → Option Json
  | [], _ => none
  | (k', v) :: t, k => if k' = k then some v else jlookup t k

/-- Map removal (serde_json::Map::remove): returns the removed value, if
any, together with the map without that binding. -/
def removeKey : List (String × Json) → String → Option Json × List (String × Json)
  | [], _ => (none, [])
  | (k', v) :: t, k =>
    if k' = k then (some v, t)
    else
      let r := removeKey t k
      (r.1, (k', v) :: r.2)

/-- Map removal discarding the value (serde_json::Map::remove used for
effect only). -/
def eraseKey (m : List (String × Json)) (k : String) : List (String × Json) :=
  (removeKey m k).2

/-- Whether a key is bound (serde_json::Map::contains_key). -/
def hasKey : List (String × Json) → String → Bool
  | [], _ => false
  | (k', _) :: t, k => k' = k || hasKey t k

/-- Map insertion (serde_json::Map::insert): replaces the binding of an
existing key in place, otherwise appends the new binding. -/
def objInsert : List (String × Json) → String → Json → List (String × Json)
  | [], k, v => [(k, v)]
  | (k', v') :: t, k, v =>
    if k' = k then (k, v) :: t else (k', v') :: objInsert t k v

/-- Value::get with a string index: field lookup on objects, none on
everything else. -/
def jsonGet : Json → String → Option Json
  | .obj fields, k => jlookup fields k
  | _, _ => none

/-- str::split_once: splits at the first occurrence of the separator. -/
def splitOnceAux (sep : Char) : List Char → List Char → Option (String × String)
  | [], _ => none
  | c :: t, acc => if c = sep then some (String.mk acc.reverse, String.mk t)
                   else splitOnceAux sep t (c :: acc)

def splitOnce (s : String) (sep : Char) : Option (String × String) :=
  splitOnceAux sep s.toList []

/-- Vec join / path.join("/"). -/
def pathJoin (path : List String) : String :=
  String.intercalate "/" path

/-! A small JSON text parser modelling `serde_json::from_str` as used to
parse the `k:` selector bodies of the managed-field tree.  Numbers are
restricted to integers, matching the integer modelling of `Json.num`. -/

def jsonLBrace : Char := Char.ofNat 123

def jsonRBrace : Char := Char.ofNat 125

def skipWs : List Char → List Char
  | [] => []
  | c :: t => if c = ' ' ∨ c = '\t' ∨ c = '\n' ∨ c = '\r' then skipWs t else c :: t

def parseHexDigit (c : Char) : Option Nat :=
  if '0' ≤ c ∧ c ≤ '9' then some (c.toNat - '0'.toNat)
  else if 'a' ≤ c ∧ c ≤ 'f' then some (c.toNat - 'a'.toNat + 10)
  else if 'A' ≤ c ∧ c ≤ 'F' then some (c.toNat - 'A'.toNat + 10)
  else none

def parseStrAux : List Char → List Char → Except String (String × List Char)
  | [], _ => .error "unterminated string"
  | c :: t, acc =>
    if c = '"' then .ok (String.mk acc.reverse, t)
    else if c = '\\' then
      match t with
      | [] => .error "unterminated escape"
      | e :: t2 =>
        if e = 'u' then
          match t2 with
          | a :: b :: c2 :: d :: t3 =>
            match parseHexDigit a, parseHexDigit b, parseHexDigit c2, parseHexDigit d with
            | some ha, some hb, some hc, some hd =>
              parseStrAux t3 (Char.ofNat (((ha * 16 + hb) * 16 + hc) * 16 + hd) :: acc)
            | _, _, _, _ => .error "invalid unicode escape"
          | _ => .error "unterminated unicode escape"
        else if e = '"' ∨ e = '\\' ∨ e = '/' then parseStrAux t2 (e :: acc)
        else if e = 'n' then parseStrAux t2 ('\n' :: acc)
        else if e = 't' then parseStrAux t2 ('\t' :: acc)
        else if e = 'r' then parseStrAux t2 ('\r' :: acc)
        else if e = 'b' then parseStrAux t2 (Char.ofNat 8 :: acc)
        else if e = 'f' then parseStrAux t2 (Char.ofNat 12 :: acc)
        else .error "invalid escape"
    else parseStrAux t (c :: acc)

def parseDigits : List Char → Nat → Option Nat → Nat × Option Nat × List Char
  | [], acc, got => (acc, got, [])
  | c :: t, acc, got =>
    if '0' ≤ c ∧ c ≤ '9' then parseDigits t (acc * 10 + (c.toNat - '0'.toNat)) (some 1)
    else (acc, got, c :: t)

def parseIntLit : List Char → Except String (Int × List Char)
  | [] => .error "unexpected end of input"
  | c :: t =>
    if c = '-' then
      match parseDigits t 0 none with
      | (_, none, _) => .error "invalid number"
      | (n, some _, rest) => .ok (-(n : Int), rest)
    else
      match parseDigits (c :: t) 0 none with
      | (_, none, _) => .error "invalid number"
      | (n, some _, rest) => .ok ((n : Int), rest)

mutual

def parseValue : Nat → List Char → Except String (Json × List Char)
  | 0, _ => .error "recursion limit exceeded"
  | fuel + 1, cs =>
    match skipWs cs with
    | [] => .error "unexpected end of input"
    | c :: t =>
      if c = 'n' then
        match t with
        | 'u' :: 'l' :: 'l' :: rest => .ok (.null, rest)
        | _ => .error "expected null"
      else if c = 't' then
        match t with
        | 'r' :: 'u' :: 'e' :: rest => .ok (.bool true, rest)
        | _ => .error "expected true"
      else if c = 'f' then
        match t with
        | 'a' :: 'l' :: 's' :: 'e' :: rest => .ok (.bool false, rest)
        | _ => .error "expected false"
      else if c = '"' then do
        let (s, rest) ← parseStrAux t []
        .ok (.str s, rest)
      else if c = jsonLBrace then
        match skipWs t with
        | c2 :: t2 =>
          if c2 = jsonRBrace then .ok (.obj [], t2)
          else parseMembers fuel (c2 :: t2) []
        | [] => .error "unterminated object"
      else if c = '[' then
        match skipWs t with
        | c2 :: t2 =>
          if c2 = ']' then .ok (.arr [], t2)
          else parseElems fuel (c2 :: t2) []
        | [] => .error "unterminated array"
      else do
        let (n, rest) ← parseIntLit (c :: t)
        .ok (.num n, rest)

def parseMembers : Nat → List Char → List (String × Json) → Except String (Json × List Char)
  | 0, _, _ => .error "recursion limit exceeded"
  | fuel + 1, cs, acc =>
    match skipWs cs with
    | '"' :: t => do
      let (key, rest) ← parseStrAux t []
      match skipWs rest with
      | ':' :: t2 => do
        let (v, rest2) ← parseValue fuel t2
        match skipWs rest2 with
        | ',' :: t3 => parseMembers fuel t3 ((key, v) :: acc)
        | c :: t3 =>
          if c = jsonRBrace then .ok (.obj ((key, v) :: acc).reverse, t3)
          else .error "expected comma or end of object"
        | [] => .error "unterminated object"
      | _ => .error "expected colon"
    | _ => .error "expected object key"

def parseElems : Nat → List Char → List Json → Except String (Json × List Char)
  | 0, _, _ => .error "recursion limit exceeded"
  | fuel + 1, cs, acc => do
    let (v, rest) ← parseValue fuel cs
    match skipWs rest with
    | ',' :: t => parseElems fuel t (v :: acc)
    | c :: t =>
      if c = ']' then .ok (.arr (v :: acc).reverse, t)
      else .error "expected comma or end of array"
    | [] => .error "unterminated array"

end

/-- serde_json::from_str::<serde_json::Map<String, JsonValue>>: parse a
complete JSON document that must be an object. -/
def jsonFromStrObj (s : String) : Except String (List (String × Json)) :=
  let cs := s.toList
  match parseValue (cs.length + 1) cs with
  | .error e => .error e
  | .ok (v, rest) =>
    match skipWs rest with
    | [] =>
      match v with
      | .obj fields => .ok fields
      | _ => .error "invalid type: expected a map"
    | _ => .error "trailing characters"

/-! Embedding of `copy_unmanaged_fields` (src/kubernetes.rs, lines 51-222).
The Rust function threads a mutable `path` vector (always restored on
return, so it is passed down functionally) and a mutable `remove_patches`
vector (modelled as the second component of the result, in emission
order). -/

/-- Matching rule for one `k:` entry of a managed array level
(struct Selector in src/kubernetes.rs). -/
structure Selector where
  data : Json
  matcher : List (String × Json)
  used : Bool
  deriving Repr, DecidableEq

/-- Build the selector list from the keys of a managed object sitting at an
array level: every key must be `k:<json object>`. -/
def buildSelectors : List (String × Json) → Except String (List Selector)
  | [] => .ok []
  | (k, v) :: t =>
    match splitOnce k ':' with
    | none => .error ("Unknown selector " ++ k)
    | some (ty, s) =>
      if ty ≠ "k" then .error ("Unknown type of selector " ++ ty)
      else do
        let matcher ← jsonFromStrObj s
        let rest ← buildSelectors t
        .ok ({ data := v, matcher := matcher, used := false } :: rest)

/-- An array element matches a selector iff every key of the matcher is
present in the element with the same value. -/
def selMatches (matcher : List (String × Json)) (wv : Json) : Bool :=
  matcher.all (fun kv => jsonGet wv kv.1 = some kv.2)

/-- selectors.iter_mut().find_map(...): find the first unused selector
matching the element, marking it used. -/
def markFind : List Selector → Json → Option Json × List Selector
  | [], _ => (none, [])
  | s :: rest, wv =>
    if !s.used && selMatches s.matcher wv then (some s.data, { s with used := true } :: rest)
    else
      let r := markFind rest wv
      (r.1, s :: r.2)

mutual

/-- copy_unmanaged_fields (src/kubernetes.rs lines 51-222): three-way
structural merge of (have, want, managed); returns the merged value and
the emitted remove-patch paths. -/
def copyUnmanagedFields (hv wv mv : Json) (path : List String) :
    Except String (Json × List String) :=
  match hv, wv, mv with
  | .arr h, .arr w, .obj m => do
    let sels ← buildSelectors m
    let (vals, rps) ← cufArrSel h w sels 0 path
    .ok (.arr vals, rps)
  | .arr h, .arr w, .null => do
    let (vals, rps) ← cufArrNull h w 0 path
    .ok (.arr vals, rps)
  | .obj h, .obj w, .obj m => do
    let (copy, rem, rps) ← cufObjM h w m path
    .ok (.obj (copy ++ rem), rps)
  | .obj h, .obj w, .null => do
    let (copy, rem, rps) ← cufObjNull h w path
    .ok (.obj (copy ++ rem), rps)
  | .str _, .num n, _ => .ok (.str (toString n), [])
  | _, .null, .obj _ => .ok (.null, [])
  | h, .null, .null => .ok (h, [])
  | _, w, _ => .ok (w, [])
termination_by structural hv

/-- The element loop of the (Array, Array, Object) case: walk want
positionally against have, matching selectors. -/
def cufArrSel (hs ws : List Json) (sels : List Selector) (i : Nat) (path : List String) :
    Except String (List Json × List String) :=
  match hs, ws with
  | _, [] => .ok ([], [])
  | [], wv :: wt => .ok (wv :: wt, [])
  | hv :: ht, wv :: wt =>
    let found := markFind sels wv
    match wv with
    | .null =>
      match hv, found.1 with
      | .null, _ => do
        let (rest, rps) ← cufArrSel ht wt found.2 (i + 1) path
        .ok (.null :: rest, rps)
      | _, none => do
        let (rest, rps) ← cufArrSel ht wt found.2 (i + 1) path
        .ok (rest, pathJoin (path ++ [toString i]) :: rps)
      | _, some _ => do
        let (rest, rps) ← cufArrSel ht wt found.2 (i + 1) path
        .ok (.null :: rest, rps)
    | _ => do
      let (v, rp1) ← copyUnmanagedFields hv wv (found.1.getD .null) (path ++ [toString i])
      let (rest, rp2) ← cufArrSel ht wt found.2 (i + 1) path
      .ok (v :: rest, rp1 ++ rp2)
termination_by structural hs

/-- The element loop of the (Array, Array, Null) case: positional merge
with null managed. -/
def cufArrNull (hs ws : List Json) (i : Nat) (path : List String) :
    Except String (List Json × List String) :=
  match hs, ws with
  | _, [] => .ok ([], [])
  | [], wv :: wt => .ok (wv :: wt, [])
  | hv :: ht, wv :: wt =>
    match wv with
    | .null =>
      match hv with
      | .null => do
        let (rest, rps) ← cufArrNull ht wt (i + 1) path
        .ok (.null :: rest, rps)
      | _ => do
        let (rest, rps) ← cufArrNull ht wt (i + 1) path
        .ok (rest, pathJoin (path ++ [toString i]) :: rps)
    | _ => do
      let (v, rp1) ← copyUnmanagedFields hv wv .null (path ++ [toString i])
      let (rest, rp2) ← cufArrNull ht wt (i + 1) path
      .ok (v :: rest, rp1 ++ rp2)
termination_by structural hs

/-- The key loop of the (Object, Object, Object) case: walk have's keys,
consuming matching keys of want (`remaining`) and consulting the `f:`
entries of the managed object; returns (copy, leftover want, patches). -/
def cufObjM (hs remaining m : List (String × Json)) (path : List String) :
    Except String (List (String × Json) × List (String × Json) × List String) :=
  match hs with
  | [] => .ok ([], remaining, [])
  | (k, v) :: ht =>
    let r := removeKey remaining k
    do
      let (nv, rp1) ← copyUnmanagedFields v (r.1.getD .null)
        ((jlookup m ("f:" ++ k)).getD .null) (path ++ [k])
      let (copyRest, remFinal, rp2) ← cufObjM ht r.2 m path
      .ok ((k, nv) :: copyRest, remFinal, rp1 ++ rp2)
termination_by structural hs

/-- The key loop of the (Object, Object, Null) case. -/
def cufObjNull (hs remaining : List (String × Json)) (path : List String) :
    Except String (List (String × Json) × List (String × Json) × List String) :=
  match hs with
  | [] => .ok ([], remaining, [])
  | (k, v) :: ht =>
    let r := removeKey remaining k
    do
      let (nv, rp1) ← copyUnmanagedFields v (r.1.getD .null) .null (path ++ [k])
      let (copyRest, remFinal, rp2) ← cufObjNull ht r.2 path
      .ok ((k, nv) :: copyRest, remFinal, rp1 ++ rp2)
termination_by structural hs

end

/-! Data model of Kubernetes objects as used by the diff engine
(kube::api::DynamicObject, TypeMeta, the metadata fields the engine
touches) and of resource sets (src/kubernetes.rs lines 14-41). -/

/-- kube::api::TypeMeta. -/
structure TypeMeta where
  api_version : String
  kind : String
  deriving DecidableEq, Repr

/-- The metadata fields of kube::api::ObjectMeta that the engine reads or
writes (name, namespace, resourceVersion, uid); absent fields are not
serialized.  The namespace field is renamed (a Lean keyword). -/
structure ObjectMeta where
  name : Option String := none
  nspace : Option String := none
  resourceVersion : Option String := none
  uid : Option String := none
  deriving DecidableEq, Repr

/-- kube::api::DynamicObject: flattened TypeMeta, metadata, and a flattened
free-form body. -/
structure DynamicObject where
  types : Option TypeMeta := none
  metadata : ObjectMeta := {}
  data : Json := .obj []
  deriving DecidableEq, Repr

/-- Serialization of the metadata (serde skips None fields). -/
def objectMetaToJson (m : ObjectMeta) : List (String × Json) :=
  (match m.name with | some s => [("name", Json.str s)] | none => []) ++
  (match m.nspace with | some s => [("namespace", Json.str s)] | none => []) ++
  (match m.resourceVersion with | some s => [("resourceVersion", Json.str s)] | none => []) ++
  (match m.uid with | some s => [("uid", Json.str s)] | none => [])

/-- serde_json::to_value of a DynamicObject: the TypeMeta and the body are
flattened next to the metadata. -/
def dynamicObjectToJson (o : DynamicObject) : Json :=
  .obj ((match o.types with
         | some t => [("apiVersion", Json.str t.api_version), ("kind", Json.str t.kind)]
         | none => []) ++
        [("metadata", Json.obj (objectMetaToJson o.metadata))] ++
        (match o.data with | .obj fields => fields | _ => []))

/-- KubernetesKey (src/kubernetes.rs lines 14-21); the namespace field is
renamed (a Lean keyword). -/
structure KubernetesKey where
  name : String
  kind : String
  api_version : String
  nspace : Option String
  cluster : String
  deriving DecidableEq, Repr

/-- KubernetesResources (src/kubernetes.rs lines 37-41): resource maps are
modelled as association lists in the BTreeMap iteration order. -/
structure KubernetesResources where
  by_key : List (KubernetesKey × DynamicObject)
  namespaces : List (KubernetesKey × DynamicObject)
  deriving DecidableEq, Repr

/-- Generic association-list lookup (BTreeMap / HashMap get). -/
def lookupAssoc {α β : Type} [DecidableEq α] : List (α × β) → α → Option β
  | [], _ => none
  | (k', v) :: t, k => if k' = k then some v else lookupAssoc t k

/-- Generic association-list removal (BTreeMap::remove): the removed value,
if any, together with the map without that binding. -/
def removeAssoc {α β : Type} [DecidableEq α] : List (α × β) → α → Option β × List (α × β)
  | [], _ => (none, [])
  | (k', v) :: t, k =>
    if k' = k then (some v, t)
    else
      let r := removeAssoc t k
      (r.1, (k', v) :: r.2)

/-! Model of json_patch as used by the diff engine: the diff function
emits Add, Remove and Replace operations with JSON-Pointer paths (the
other operation kinds exist in the crate but are never produced by diff). -/

/-- json_patch::PatchOperation. -/
inductive PatchOp where
  | add (path : String) (value : Json)
  | remove (path : String)
  | replace (path : String) (value : Json)
  | test (path : String) (value : Json)
  | copyOp (fromPath : String) (path : String)
  | moveOp (fromPath : String) (path : String)
  deriving DecidableEq, Repr

/-- JSON-Pointer token escaping ("~" becomes "~0", "/" becomes "~1"). -/
def escapeChars : List Char → List Char
  | [] => []
  | c :: t =>
    if c = '~' then '~' :: '0' :: escapeChars t
    else if c = '/' then '~' :: '1' :: escapeChars t
    else c :: escapeChars t

def escapeToken (s : String) : String :=
  String.mk (escapeChars s.toList)

/-- Add operations for the elements of the right array beyond the length of
the left array. -/
def diffAddTail : List Json → Nat → String → List PatchOp
  | [], _, _ => []
  | r :: rt, i, path => .add (path ++ "/" ++ toString i) r :: diffAddTail rt (i + 1) path

/-- Remove operations for the elements of the left array beyond the length
of the right array, highest index first. -/
def diffRemoveTail : List Json → Nat → String → List PatchOp
  | [], _, _ => []
  | _ :: lt, i, path => diffRemoveTail lt (i + 1) path ++ [.remove (path ++ "/" ++ toString i)]

mutual

/-- json_patch::diff: structural diff of two JSON documents producing
Add/Remove/Replace operations. -/
def jsonDiff (l r : Json) (path : String) : List PatchOp :=
    if l = r then []
    else
      match l, r with
      | .obj lf, .obj rf =>
        jsonDiffFields lf rf path ++
        (rf.filter (fun kv => !hasKey lf kv.1)).map
          (fun kv => .add (path ++ "/" ++ escapeToken kv.1) kv.2)
      | .arr ls, .arr rs => jsonDiffElems ls rs 0 path
      | _, r' => [.replace path r']
termination_by structural l

def jsonDiffFields (lf rf : List (String × Json)) (path : String) : List PatchOp :=
  match lf with
  | [] => []
  | (k, v) :: t =>
    (match jlookup rf k with
     | some rv => jsonDiff v rv (path ++ "/" ++ escapeToken k)
     | none => [.remove (path ++ "/" ++ escapeToken k)]) ++
    jsonDiffFields t rf path
termination_by structural lf

def jsonDiffElems (ls rs : List Json) (i : Nat) (path : String) : List PatchOp :=
  match ls, rs with
  | [], rs2 => diffAddTail rs2 i path
  | ls2, [] => diffRemoveTail ls2 i path
  | l :: lt, r :: rt =>
    jsonDiff l r (path ++ "/" ++ toString i) ++ jsonDiffElems lt rt (i + 1) path
termination_by structural ls

end

/-- DiffAction (src/generate_diff.rs lines 11-19). -/
inductive DiffAction where
  | delete
  | create (o : DynamicObject)
  | recreate (o : DynamicObject)
  | patch (after : DynamicObject) (patch : List PatchOp)
  deriving DecidableEq, Repr

/-- str::starts_with. -/
def strStartsWith (s p : String) : Bool :=
  p.toList.isPrefixOf s.toList

/-- Whether an Add, Remove or Replace operation's path starts with the
given recreate-triggering path (the loop bodies of requires_recreate). -/
def opTouches (p : String) : PatchOp → Bool
  | .add path _ => strStartsWith path p
  | .remove path => strStartsWith path p
  | .replace path _ => strStartsWith path p
  | _ => false

/-- requires_recreate (src/generate_diff.rs lines 106-161). -/
def requiresRecreate (types : TypeMeta) (patch : List PatchOp) : Bool :=
  match types.api_version, types.kind with
  | "apps/v1", "Deployment" => patch.any (opTouches "/spec/selector/")
  | "batch/v1", "Job" => patch.any (opTouches "/spec/template/")
  | _, _ => false

/-- generate_single_diff (src/generate_diff.rs lines 60-104); the printed
textual diff is side effect only and not modelled. -/
def generateSingleDiff (key : KubernetesKey) :
    Option DynamicObject → Option DynamicObject → Except String DiffAction
  | some h, some w =>
    let patch := jsonDiff (dynamicObjectToJson h) (dynamicObjectToJson w) ""
    match w.types with
    | none => .error "Expected types"
    | some types =>
      if requiresRecreate types patch then
        .ok (.recreate { w with metadata :=
          { w.metadata with resourceVersion := none, uid := none } })
      else .ok (.patch w patch)
  | some _, none => .ok .delete
  | none, some w => .ok (.create w)
  | none, none => .error "Expected a difference"

/-- The want-side loops of generate_diff (src/generate_diff.rs lines 27-43):
walk the want entries, removing the matching have entry, skipping deep-equal
pairs; returns (leftover have, emitted actions, keys recorded in `after`). -/
def wantPass :
    List (KubernetesKey × DynamicObject) → List (KubernetesKey × DynamicObject) →
    Except String (List (KubernetesKey × DynamicObject) ×
      List (KubernetesKey × DiffAction) × List KubernetesKey)
  | [], haves => .ok (haves, [], [])
  | (key, w) :: t, haves =>
    let r := removeAssoc haves key
    if r.1 = some w then wantPass t r.2
    else do
      let act ← generateSingleDiff key r.1 (some w)
      let (haveLeft, changed, after) ← wantPass t r.2
      .ok (haveLeft, (key, act) :: changed, key :: after)

/-- The have-only loops of generate_diff (src/generate_diff.rs lines 45-55):
every leftover have entry whose key is not in `after` becomes a Delete. -/
def deletePass (after : List KubernetesKey) :
    List (KubernetesKey × DynamicObject) → Except String (List (KubernetesKey × DiffAction))
  | [] => .ok []
  | (key, h) :: t =>
    if after.contains key then deletePass after t
    else do
      let act ← generateSingleDiff key (some h) none
      let rest ← deletePass after t
      .ok ((key, act) :: rest)

/-- generate_diff (src/generate_diff.rs lines 21-58). -/
def generateDiff (haveR wantR : KubernetesResources) :
    Except String (List (KubernetesKey × DiffAction)) := do
  let (haveNs, c1, a1) ← wantPass wantR.namespaces haveR.namespaces
  let (haveBk, c2, a2) ← wantPass wantR.by_key haveR.by_key
  let c3 ← deletePass (a1 ++ a2) haveBk
  let c4 ← deletePass (a1 ++ a2) haveNs
  .ok (c1 ++ c2 ++ c3 ++ c4)

/-! Apply executor (src/apply_diff.rs lines 14-47).  Cluster and database
writes are I/O; the executor is modelled down to its control flow: the
result is the list of actions actually handed to apply_single_diff, in
order, together with the error that aborted the run, if any. -/

/-- kube::discovery::Scope. -/
inductive Scope where
  | cluster
  | namespaced
  deriving DecidableEq, Repr

/-- The scope-validation loop of apply_diff (src/apply_diff.rs lines
20-32): the first offending key's error, if any. -/
def validateScopes (types : List ((String × String) × Scope)) :
    List (KubernetesKey × DiffAction) → Option String
  | [] => none
  | (key, _) :: t =>
    match lookupAssoc types (key.api_version, key.kind) with
    | none => some ("Unable to find Kubernetes type for key " ++ key.name)
    | some scope =>
      match scope, key.nspace with
      | .cluster, none => validateScopes types t
      | .cluster, some _ => some "Creating a cluster-scoped resource with a namespace will fail"
      | .namespaced, some _ => validateScopes types t
      | .namespaced, none =>
        some "Creating a namespaced-scoped resource without a namespace is disallowed"

/-- The action loop of apply_diff (src/apply_diff.rs lines 33-41):
get_kubernetes_api needs a client for the key's cluster and a discovered
type; each action that obtains an api is applied (accumulated). -/
def applyLoop (types : List ((String × String) × Scope)) (clients : List String) :
    List (KubernetesKey × DiffAction) → List (KubernetesKey × DiffAction) →
    List (KubernetesKey × DiffAction) × Option String
  | [], acc => (acc, none)
  | (key, action) :: t, acc =>
    if clients.contains key.cluster then
      match lookupAssoc types (key.api_version, key.kind) with
      | some _ => applyLoop types clients t (acc ++ [(key, action)])
      | none => (acc, some ("Unable to find type " ++ key.kind ++ " in " ++ key.api_version))
    else (acc, some ("No client defined for " ++ key.cluster))

/-- apply_diff (src/apply_diff.rs lines 14-47): validate the scope of every
key of the plan up front, then apply the actions in order. -/
def applyDiff (changed : List (KubernetesKey × DiffAction))
    (types : List ((String × String) × Scope)) (clients : List String) :
    List (KubernetesKey × DiffAction) × Option String :=
  match validateScopes types changed with
  | some e => ([], some e)
  | none => applyLoop types clients changed []

/-! Secret scrubbing (munge_secrets, src/kubernetes.rs lines 345-398). -/

/-- Value::as_object. -/
def asObj : Json → Option (List (String × Json))
  | .obj fields => some fields
  | _ => none

/-- The fixed placeholder written over secret values ("replace-me"). -/
def placeholderB64 : Json := .str "c29tZSBzdHVmZg=="

/-- The stringData pass of munge_secrets (src/kubernetes.rs lines 389-396):
remove every prior-data key from stringData, and remove stringData itself
when it becomes empty. -/
def mungeStringData (t : List (String × Json)) (fd : Option (List (String × Json))) :
    List (String × Json) :=
  match (jlookup t "stringData").bind asObj with
  | some tsd =>
    let tsd1 := ((fd.getD []).map Prod.fst).foldl eraseKey tsd
    if tsd1.length = 0 then eraseKey t "stringData"
    else objInsert t "stringData" (.obj tsd1)
  | none => t

/-- munge_secrets (src/kubernetes.rs lines 345-398). -/
def mungeSecrets (fromV : Option DynamicObject) (toV : DynamicObject) :
    Except String DynamicObject :=
  let isSecret := match toV.types with
    | some t => t.api_version == "v1" && t.kind == "Secret"
    | none => false
  if !isSecret then .ok toV
  else
    let fd := ((fromV.bind (fun f => asObj f.data)).bind
      (fun o => jlookup o "data")).bind asObj
    match asObj toV.data with
    | none => .error "data must be an object"
    | some t =>
      match fd with
      | some fdd =>
        let tdd0 := (jlookup t "data").getD (.obj [])
        match asObj tdd0 with
        | none => .error "data must be an object"
        | some tdd =>
          let tdd1 := fdd.foldl (fun acc kv => objInsert acc kv.1 kv.2) tdd
          let tdd2 := tdd1.map
            (fun kv => (kv.1, if hasKey fdd kv.1 then kv.2 else placeholderB64))
          let t1 := objInsert t "data" (.obj tdd2)
          .ok { toV with data := .obj (mungeStringData t1 fd) }
      | none =>
        match (jlookup t "data").bind asObj with
        | some tdd =>
          let t1 := objInsert t "data" (.obj (tdd.map (fun kv => (kv.1, placeholderB64))))
          .ok { toV with data := .obj (mungeStringData t1 fd) }
        | none => .ok { toV with data := .obj (mungeStringData t fd) }

/-! Confirmation prompt (ask_for_user_permission, src/main.rs lines
1006-1018) and the confirmation gate of the push command (src/main.rs lines
367-378). -/

/-- str::trim of Rust, dropping leading and trailing whitespace. -/
def rustTrim (s : String) : String :=
  String.mk (((s.toList.dropWhile Char.isWhitespace).reverse.dropWhile
    Char.isWhitespace).reverse)

/-- str::to_lowercase of Rust (character-wise lowercasing). -/
def rustToLowercase (s : String) : String :=
  String.mk (s.toList.map Char.toLower)

/-- ask_for_user_permission applied to the line read from stdin. -/
def askForUserPermission (response : String) : Bool :=
  match rustToLowercase (rustTrim response) with
  | "y" => true
  | _ => false

/-- Possible outcomes of the tail of the push command after the plan is
computed: nothing to do, cancelled by the operator (both return Ok, exit
code 0, with no cluster or database writes), or the apply run. -/
inductive PushOutcome where
  | nothingToDo
  | canceled
  | applied (result : List (KubernetesKey × DiffAction) × Option String)
  deriving DecidableEq, Repr

/-- The confirmation gate of push (src/main.rs lines 367-378): an empty
plan short-circuits; a denied prompt returns Ok without applying; otherwise
apply_diff runs. -/
def pushConfirmGate (changed : List (KubernetesKey × DiffAction)) (response : String)
    (types : List ((String × String) × Scope)) (clients : List String) : PushOutcome :=
  if changed.length = 0 then .nothingToDo
  else if askForUserPermission response then .applied (applyDiff changed types clients)
  else .canceled

/-! Image tag resolution (resolve_image_tag, src/registry_clients.rs lines
80-97; the same unguarded digests[0] index appears in
resolve_sisyphus_deployment_image, src/main.rs lines 895-916). -/

/-- docker_registry reference version: a tag or a digest. -/
inductive RegistryVersion where
  | tag (t : String)
  | digest (d : String)
  deriving DecidableEq, Repr

/-- docker_registry Reference as constructed by Reference::new. -/
structure RegistryReference where
  registry : Option String
  repository : String
  version : Option RegistryVersion
  deriving DecidableEq, Repr

/-- The pure tail of resolve_image_tag once the manifest's layer digests
are known: `digests[0]` is an unguarded Vec index (a panic on an empty
vector); it is modelled by List.get?, whose none branch stands for the
out-of-bounds panic. -/
def resolveImageTagCore (registry repository : String) (digests : List String) :
    Option RegistryReference :=
  match digests.get? 0 with
  | some d => some { registry := some registry, repository := repository,
                     version := some (.digest d) }
  | none => none

/-! Supporting lemmas shared by the claim theorems. -/

theorem except_bind_ok {ε α β : Type} (a : α) (f : α → Except ε β) :
    (Except.ok a : Except ε α) >>= f = f a := rfl

theorem except_bind_error {ε α β : Type} (e : ε) (f : α → Except ε β) :
    (Except.error e : Except ε α) >>= f = Except.error e := rfl

theorem removeKey_head (k : String) (v : Json) (t : List (String × Json)) :
    removeKey ((k, v) :: t) k = (some v, t) := by
  simp [removeKey]

theorem removeAssoc_head {α β : Type} [DecidableEq α] (k : α) (v : β) (t : List (α × β)) :
    removeAssoc ((k, v) :: t) k = (some v, t) := by
  simp [removeAssoc]

/-- C5 support: diffing a want list against an identical have list removes
every entry and emits nothing. -/
theorem wantPass_self (l : List (KubernetesKey × DynamicObject)) :
    wantPass l l = .ok ([], [], []) := by
  induction l with
  | nil => rfl
  | cons hd t ih =>
    obtain ⟨k, w⟩ := hd
    simp [wantPass, removeAssoc_head, ih]

/-- C5: generate_diff of a resource set against itself yields no actions. -/
theorem generate_diff_self_empty (X : KubernetesResources) :
    generateDiff X X = .ok [] := by
  simp [generateDiff, wantPass_self, except_bind_ok, deletePass]

/-- C10: the pure tail of resolve_image_tag pins the first layer digest when
the manifest reports at least one layer, and has no guard for an empty
digest list (the out-of-bounds branch is taken exactly then). -/
theorem resolve_image_tag_first_layer_index :
    (∀ (reg repo : String) (digests : List String), digests ≠ [] →
      resolveImageTagCore reg repo digests =
        some { registry := some reg, repository := repo,
               version := some (.digest (digests.headI)) }) ∧
    (∀ reg repo : String, resolveImageTagCore reg repo [] = none) := by
  constructor
  · intro reg repo digests hne
    cases digests with
    | nil => exact absurd rfl hne
    | cons d rest => rfl
  · intro reg repo
    rfl

theorem resolve_image_tag_first_layer_index_witness :
    resolveImageTagCore "registry.example" "app/image" ["sha256:abc"] =
      some { registry := some "registry.example", repository := "app/image",
             version := some (.digest "sha256:abc") } :=
  resolve_image_tag_first_layer_index.1 "registry.example" "app/image" ["sha256:abc"]
    (by decide)

/-- C9 counterexample: the input "Y" is not the exact string "y", yet the
prompt confirms, refuting "returns true iff the input line is y". -/
theorem prompt_accepts_uppercase_y :
    askForUserPermission "Y" = true ∧ ("Y" : String) ≠ "y" := by
  constructor
  · rfl
  · decide

/-- C9 amended: the prompt confirms exactly when the trimmed, lowercased
input is "y"; whenever it does not confirm, the push command's confirmation
gate ends the run cleanly (an Ok return, so exit code 0) without reaching
apply_diff, hence without cluster or database writes. -/
theorem prompt_trim_lowercase_semantics :
    (∀ s : String, askForUserPermission s = true ↔ rustToLowercase (rustTrim s) = "y") ∧
    (∀ (changed : List (KubernetesKey × DiffAction)) (s : String)
       (types : List ((String × String) × Scope)) (clients : List String),
      askForUserPermission s = false →
      pushConfirmGate changed s types clients = .canceled ∨
        pushConfirmGate changed s types clients = .nothingToDo) := by
  constructor
  · intro s
    unfold askForUserPermission
    split
    · next heq => simp [heq]
    · next hne => simp; intro hcontra; exact hne hcontra
  · intro changed s types clients hfalse
    unfold pushConfirmGate
    by_cases hlen : changed.length = 0
    · right; simp [hlen]
    · left; simp [hlen, hfalse]

theorem prompt_trim_lowercase_semantics_witness :
    pushConfirmGate [] "n" [] [] = .canceled ∨ pushConfirmGate [] "n" [] [] = .nothingToDo :=
  prompt_trim_lowercase_semantics.2 [] "n" [] [] (by rfl)

/-- C2 counterexample: at the root leaf path the managed tree (null)
assigns no ownership and have has the value 1, yet the merged result is the
want value 2, not the have value: unowned leaves are not preserved when
want sets a value. -/
theorem merger_overwrites_unowned_leaf :
    copyUnmanagedFields (.num 1) (.num 2) .null [] = .ok (.num 2, []) ∧
      Json.num 2 ≠ Json.num 1 := by
  constructor
  · rfl
  · decide

/-- A managed object key "." is never equal to any "f:"-prefixed lookup
key. -/
theorem dot_ne_fcolon (k : String) : ("." : String) ≠ "f:" ++ k := by
  intro h
  have h2 := congrArg String.length h
  rw [String.length_append] at h2
  have e1 : ("." : String).length = 1 := rfl
  have e2 : ("f:" : String).length = 2 := rfl
  rw [e1, e2] at h2
  omega

/-- In the object-merge loop the managed entries are consulted only through
"f:"-prefixed keys, so a "." entry never changes the result. -/
theorem cufObjM_ignores_dot (hs : List (String × Json)) (rem : List (String × Json))
    (v : Json) (mf : List (String × Json)) (path : List String) :
    cufObjM hs rem ((".", v) :: mf) path = cufObjM hs rem mf path := by
  induction hs generalizing rem with
  | nil => rfl
  | cons hd ht ih =>
    obtain ⟨k, x⟩ := hd
    have hne : ¬(("." : String) = "f:" ++ k) := dot_ne_fcolon k
    simp only [cufObjM, jlookup, if_neg hne, ih]

/-- C8 counterexample: a managed object with the literal key "." makes the
merge fail outright at an array level (the claim says it succeeds), and at
an object level the marker does not make the engine own the level: have's
key survives although want omits it. -/
theorem dot_key_not_self_marker :
    copyUnmanagedFields (.arr [.num 1]) (.arr [.num 2]) (.obj [(".", .obj [])]) [] =
      .error "Unknown selector ." ∧
    copyUnmanagedFields (.obj [("a", .num 1)]) (.obj []) (.obj [(".", .obj [])]) [] =
      .ok (.obj [("a", .num 1)], []) := by
  exact ⟨rfl, rfl⟩

/-- C8 amended: a literal "." key in a managed object is not a self-marker:
in the object-merge case it is ignored (only "f:"-prefixed managed keys are
consulted, so adding a "." entry never changes the result), and in the
array-merge case any managed key without a colon, "." included, aborts the
merge with an "Unknown selector" error. -/
theorem dot_key_ignored_or_error :
    (∀ (hf wf : List (String × Json)) (v : Json) (mf : List (String × Json))
       (path : List String),
      copyUnmanagedFields (.obj hf) (.obj wf) (.obj ((".", v) :: mf)) path =
        copyUnmanagedFields (.obj hf) (.obj wf) (.obj mf) path) ∧
    (∀ (h w : List Json) (v : Json) (mf : List (String × Json)) (path : List String),
      copyUnmanagedFields (.arr h) (.arr w) (.obj ((".", v) :: mf)) path =
        .error "Unknown selector .") := by
  constructor
  · intro hf wf v mf path
    simp only [copyUnmanagedFields, cufObjM_ignores_dot]
  · intro h w v mf path
    rfl

/-- C2 support: a lookup hit in the left part of an appended map is a hit in
the whole map. -/
theorem jlookup_append_some {a b : List (String × Json)} {k : String} {v : Json}
    (h : jlookup a k = some v) : jlookup (a ++ b) k = some v := by
  induction a with
  | nil => simp [jlookup] at h
  | cons hd t ih =>
    obtain ⟨k', v'⟩ := hd
    by_cases hk : k' = k
    · subst hk
      simp [jlookup] at h ⊢
      exact h
    · simp [jlookup, hk] at h ⊢
      exact ih h

/-- Removing an absent key leaves the map unchanged. -/
theorem removeKey_lookup_none {W : List (String × Json)} {k : String}
    (h : jlookup W k = none) : removeKey W k = (none, W) := by
  induction W with
  | nil => rfl
  | cons hd t ih =>
    obtain ⟨k', v'⟩ := hd
    by_cases hk : k' = k
    · subst hk; simp [jlookup] at h
    · simp [jlookup, hk] at h
      simp [removeKey, hk, ih h]

/-- Removal never introduces a key. -/
theorem removeKey_lookup_none_preserved {W : List (String × Json)} {k k' : String}
    (h : jlookup W k = none) : jlookup (removeKey W k').2 k = none := by
  induction W with
  | nil => rfl
  | cons hd t ih =>
    obtain ⟨k0, v0⟩ := hd
    by_cases hk : k0 = k
    · subst hk; simp [jlookup] at h
    · simp [jlookup, hk] at h
      by_cases hk' : k0 = k'
      · simp [removeKey, hk', h]
      · simp [removeKey, hk', jlookup, hk]
        exact ih h

/-- Merging any have value against a null want with null managed keeps the
have value and emits nothing. -/
theorem cuf_want_null_null (v : Json) (path : List String) :
    copyUnmanagedFields v .null .null path = .ok (v, []) := by
  cases v <;> rfl

/-- C2 support: the managed object-merge loop leaves have's binding intact
for a key want does not bind and managed does not own. -/
theorem cufObjM_preserves (hs : List (String × Json)) :
    ∀ (W mf : List (String × Json)) (path : List String) (k : String) (v : Json)
      (C R : List (String × Json)) (rps : List String),
    jlookup hs k = some v → jlookup W k = none → jlookup mf ("f:" ++ k) = none →
    cufObjM hs W mf path = .ok (C, R, rps) → jlookup C k = some v := by
  induction hs with
  | nil =>
    intro W mf path k v C R rps hh _ _ _
    simp [jlookup] at hh
  | cons hd ht ih =>
    intro W mf path k v C R rps hh hw hm hok
    obtain ⟨k0, x⟩ := hd
    by_cases hk : k0 = k
    · subst hk
      simp [jlookup] at hh
      subst hh
      rw [show cufObjM ((k0, x) :: ht) W mf path =
            (do
              let (nv, rp1) ← copyUnmanagedFields x (((removeKey W k0).1).getD .null)
                ((jlookup mf ("f:" ++ k0)).getD .null) (path ++ [k0])
              let (copyRest, remFinal, rp2) ← cufObjM ht (removeKey W k0).2 mf path
              .ok ((k0, nv) :: copyRest, remFinal, rp1 ++ rp2)) from rfl] at hok
      rw [removeKey_lookup_none hw, hm] at hok
      simp only [Option.getD] at hok
      rw [cuf_want_null_null, except_bind_ok] at hok
      cases hrec : cufObjM ht W mf path with
      | error e => rw [hrec] at hok; simp [except_bind_error] at hok
      | ok res =>
        obtain ⟨C', R', rp2⟩ := res
        rw [hrec] at hok
        simp [except_bind_ok] at hok
        obtain ⟨hC, _, _⟩ := hok
        rw [← hC]
        simp [jlookup]
    · simp [jlookup, hk] at hh
      rw [show cufObjM ((k0, x) :: ht) W mf path =
            (do
              let (nv, rp1) ← copyUnmanagedFields x (((removeKey W k0).1).getD .null)
                ((jlookup mf ("f:" ++ k0)).getD .null) (path ++ [k0])
              let (copyRest, remFinal, rp2) ← cufObjM ht (removeKey W k0).2 mf path
              .ok ((k0, nv) :: copyRest, remFinal, rp1 ++ rp2)) from rfl] at hok
      cases hcuf : copyUnmanagedFields x (((removeKey W k0).1).getD .null)
          ((jlookup mf ("f:" ++ k0)).getD .null) (path ++ [k0]) with
      | error e => rw [hcuf] at hok; simp [except_bind_error] at hok
      | ok res1 =>
        obtain ⟨nv, rp1⟩ := res1
        rw [hcuf] at hok
        rw [except_bind_ok] at hok
        cases hrec : cufObjM ht (removeKey W k0).2 mf path with
        | error e => rw [hrec] at hok; simp [except_bind_error] at hok
        | ok res2 =>
          obtain ⟨C', R', rp2⟩ := res2
          rw [hrec] at hok
          simp [except_bind_ok] at hok
          obtain ⟨hC, _, _⟩ := hok
          rw [← hC]
          simp [jlookup, hk]
          exact ih (removeKey W k0).2 mf path k v C' R' rp2 hh
            (removeKey_lookup_none_preserved hw) hm hrec

/-- C2 support: the null-managed object-merge loop leaves have's binding
intact for a key want does not bind. -/
theorem cufObjNull_preserves (hs : List (String × Json)) :
    ∀ (W : List (String × Json)) (path : List String) (k : String) (v : Json)
      (C R : List (String × Json)) (rps : List String),
    jlookup hs k = some v → jlookup W k = none →
    cufObjNull hs W path = .ok (C, R, rps) → jlookup C k = some v := by
  induction hs with
  | nil =>
    intro W path k v C R rps hh _ _
    simp [jlookup] at hh
  | cons hd ht ih =>
    intro W path k v C R rps hh hw hok
    obtain ⟨k0, x⟩ := hd
    by_cases hk : k0 = k
    · subst hk
      simp [jlookup] at hh
      subst hh
      rw [show cufObjNull ((k0, x) :: ht) W path =
            (do
              let (nv, rp1) ← copyUnmanagedFields x (((removeKey W k0).1).getD .null)
                .null (path ++ [k0])
              let (copyRest, remFinal, rp2) ← cufObjNull ht (removeKey W k0).2 path
              .ok ((k0, nv) :: copyRest, remFinal, rp1 ++ rp2)) from rfl] at hok
      rw [removeKey_lookup_none hw] at hok
      simp only [Option.getD] at hok
      rw [cuf_want_null_null, except_bind_ok] at hok
      cases hrec : cufObjNull ht W path with
      | error e => rw [hrec] at hok; simp [except_bind_error] at hok
      | ok res =>
        obtain ⟨C', R', rp2⟩ := res
        rw [hrec] at hok
        simp [except_bind_ok] at hok
        obtain ⟨hC, _, _⟩ := hok
        rw [← hC]
        simp [jlookup]
    · simp [jlookup, hk] at hh
      rw [show cufObjNull ((k0, x) :: ht) W path =
            (do
              let (nv, rp1) ← copyUnmanagedFields x (((removeKey W k0).1).getD .null)
                .null (path ++ [k0])
              let (copyRest, remFinal, rp2) ← cufObjNull ht (removeKey W k0).2 path
              .ok ((k0, nv) :: copyRest, remFinal, rp1 ++ rp2)) from rfl] at hok
      cases hcuf : copyUnmanagedFields x (((removeKey W k0).1).getD .null)
          .null (path ++ [k0]) with
      | error e => rw [hcuf] at hok; simp [except_bind_error] at hok
      | ok res1 =>
        obtain ⟨nv, rp1⟩ := res1
        rw [hcuf] at hok
        rw [except_bind_ok] at hok
        cases hrec : cufObjNull ht (removeKey W k0).2 path with
        | error e => rw [hrec] at hok; simp [except_bind_error] at hok
        | ok res2 =>
          obtain ⟨C', R', rp2⟩ := res2
          rw [hrec] at hok
          simp [except_bind_ok] at hok
          obtain ⟨hC, _, _⟩ := hok
          rw [← hC]
          simp [jlookup, hk]
          exact ih (removeKey W k0).2 path k v C' R' rp2 hh
            (removeKey_lookup_none_preserved hw) hrec

/-- C2 amended: the merger preserves have's value for a key that want does
not bind and that the managed tree does not own (no "f:" entry, or null
managed): when the merge of two objects succeeds, the result still maps
that key to have's value.  (Preservation does not hold for every unowned
leaf: when want binds a value at the leaf the want value wins, and unowned
null array elements are dropped, shifting later indices.) -/
theorem merger_preserves_unset_unowned_key
    (hf wf : List (String × Json)) (m : Json) (path : List String)
    (k : String) (v : Json) (r : Json) (rs : List String)
    (hh : jlookup hf k = some v) (hw : jlookup wf k = none)
    (hm : m = Json.null ∨ ∃ mf, m = Json.obj mf ∧ jlookup mf ("f:" ++ k) = none)
    (hok : copyUnmanagedFields (.obj hf) (.obj wf) m path = .ok (r, rs)) :
    jsonGet r k = some v := by
  rcases hm with hm | ⟨mf, hm, hmf⟩
  · subst hm
    rw [show copyUnmanagedFields (.obj hf) (.obj wf) .null path =
          (do
            let (copy, rem, rps) ← cufObjNull hf wf path
            Except.ok (Json.obj (copy ++ rem), rps)) from rfl] at hok
    cases hrec : cufObjNull hf wf path with
    | error e => rw [hrec] at hok; simp [except_bind_error] at hok
    | ok res =>
      obtain ⟨C, R, rps0⟩ := res
      rw [hrec] at hok
      simp [except_bind_ok] at hok
      obtain ⟨hr, _⟩ := hok
      rw [← hr]
      exact jlookup_append_some (cufObjNull_preserves hf wf path k v C R rps0 hh hw hrec)
  · subst hm
    rw [show copyUnmanagedFields (.obj hf) (.obj wf) (.obj mf) path =
          (do
            let (copy, rem, rps) ← cufObjM hf wf mf path
            Except.ok (Json.obj (copy ++ rem), rps)) from rfl] at hok
    cases hrec : cufObjM hf wf mf path with
    | error e => rw [hrec] at hok; simp [except_bind_error] at hok
    | ok res =>
      obtain ⟨C, R, rps0⟩ := res
      rw [hrec] at hok
      simp [except_bind_ok] at hok
      obtain ⟨hr, _⟩ := hok
      rw [← hr]
      exact jlookup_append_some (cufObjM_preserves hf wf mf path k v C R rps0 hh hw hmf hrec)

theorem merger_preserves_unset_unowned_key_witness :
    jsonGet (Json.obj [("a", Json.num 1)]) "a" = some (Json.num 1) :=
  merger_preserves_unset_unowned_key [("a", Json.num 1)] [] .null [] "a" (Json.num 1)
    (Json.obj [("a", Json.num 1)]) [] rfl rfl (Or.inl rfl) rfl

/-- C1 counterexample: merging the merged result again differs from merging
once.  With have = [5, null], want = [null, null] and null managed, the
first merge drops the unowned element at index 0 and keeps the null at
index 1, yielding [null]; re-merging [null] against the same have drops it
too, yielding []. -/
theorem merger_not_idempotent :
    copyUnmanagedFields (.arr [.num 5, .null]) (.arr [.null, .null]) .null [] =
      .ok (.arr [.null], ["0"]) ∧
    copyUnmanagedFields (.arr [.num 5, .null]) (.arr [.null]) .null [] =
      .ok (.arr [], ["0"]) ∧
    Json.arr [] ≠ Json.arr [.null] := by
  refine ⟨rfl, rfl, by decide⟩

/-- C3: whenever the computed JSON-Patch between the serialized have and
want objects contains an Add, Remove or Replace operation whose path starts
with /spec/selector/ (for an apps/v1 Deployment) or /spec/template/ (for a
batch/v1 Job), generate_single_diff emits a Recreate action whose payload
is want with resource_version and uid nulled. -/
theorem recreate_on_protected_paths :
    (∀ (key : KubernetesKey) (h w : DynamicObject),
      w.types = some { api_version := "apps/v1", kind := "Deployment" } →
      (∃ op ∈ jsonDiff (dynamicObjectToJson h) (dynamicObjectToJson w) "",
        opTouches "/spec/selector/" op = true) →
      generateSingleDiff key (some h) (some w) =
        .ok (.recreate { w with metadata :=
          { w.metadata with resourceVersion := none, uid := none } })) ∧
    (∀ (key : KubernetesKey) (h w : DynamicObject),
      w.types = some { api_version := "batch/v1", kind := "Job" } →
      (∃ op ∈ jsonDiff (dynamicObjectToJson h) (dynamicObjectToJson w) "",
        opTouches "/spec/template/" op = true) →
      generateSingleDiff key (some h) (some w) =
        .ok (.recreate { w with metadata :=
          { w.metadata with resourceVersion := none, uid := none } })) := by
  constructor
  · intro key h w hty hex
    have hany : (jsonDiff (dynamicObjectToJson h) (dynamicObjectToJson w) "").any
        (opTouches "/spec/selector/") = true := List.any_eq_true.mpr hex
    simp only [generateSingleDiff, hty, requiresRecreate, hany, if_true]
  · intro key h w hty hex
    have hany : (jsonDiff (dynamicObjectToJson h) (dynamicObjectToJson w) "").any
        (opTouches "/spec/template/") = true := List.any_eq_true.mpr hex
    simp only [generateSingleDiff, hty, requiresRecreate, hany, if_true]

theorem recreate_on_protected_paths_witness :
    generateSingleDiff ⟨"d", "Deployment", "apps/v1", some "ns1", "c"⟩
      (some { types := some { api_version := "apps/v1", kind := "Deployment" },
              metadata := { name := some "d" },
              data := .obj [("spec", .obj [("selector",
                .obj [("matchLabels", .obj [("app", .str "old")])])])] })
      (some { types := some { api_version := "apps/v1", kind := "Deployment" },
              metadata := { name := some "d", resourceVersion := some "5", uid := some "u" },
              data := .obj [("spec", .obj [("selector",
                .obj [("matchLabels", .obj [("app", .str "new")])])])] }) =
      .ok (.recreate { types := some { api_version := "apps/v1", kind := "Deployment" },
                       metadata := { name := some "d" },
                       data := .obj [("spec", .obj [("selector",
                         .obj [("matchLabels", .obj [("app", .str "new")])])])] }) :=
  recreate_on_protected_paths.1 ⟨"d", "Deployment", "apps/v1", some "ns1", "c"⟩
    { types := some { api_version := "apps/v1", kind := "Deployment" },
      metadata := { name := some "d" },
      data := .obj [("spec", .obj [("selector",
        .obj [("matchLabels", .obj [("app", .str "old")])])])] }
    { types := some { api_version := "apps/v1", kind := "Deployment" },
      metadata := { name := some "d", resourceVersion := some "5", uid := some "u" },
      data := .obj [("spec", .obj [("selector",
        .obj [("matchLabels", .obj [("app", .str "new")])])])] }
    rfl
    ⟨.replace "/spec/selector/matchLabels/app" (.str "new"), by decide, by decide⟩

/-- C6 support: a plan containing a key whose discovered scope disagrees
with the presence of its namespace makes the validation loop produce an
error. -/
theorem validateScopes_fails (types : List ((String × String) × Scope)) :
    ∀ (changed : List (KubernetesKey × DiffAction)) (key : KubernetesKey)
      (a : DiffAction) (s : Scope),
    (key, a) ∈ changed →
    lookupAssoc types (key.api_version, key.kind) = some s →
    ((s = Scope.cluster ∧ key.nspace ≠ none) ∨ (s = Scope.namespaced ∧ key.nspace = none)) →
    (validateScopes types changed).isSome = true := by
  intro changed
  induction changed with
  | nil => intro key a s hmem; simp at hmem
  | cons hd t ih =>
    intro key a s hmem hlk hbad
    obtain ⟨k0, a0⟩ := hd
    rcases List.mem_cons.mp hmem with heq | hmem'
    · obtain ⟨hk, _⟩ := Prod.mk.injEq .. ▸ heq
      injection heq with hk ha
      subst hk
      simp only [validateScopes, hlk]
      rcases hbad with ⟨hs, hns⟩ | ⟨hs, hns⟩
      · subst hs
        cases hnsv : key.nspace with
        | none => exact absurd hnsv hns
        | some nsv => simp [hnsv]
      · subst hs
        cases hnsv : key.nspace with
        | none => simp [hnsv]
        | some nsv => rw [hnsv] at hns; simp at hns
    · simp only [validateScopes]
      cases hlk0 : lookupAssoc types (k0.api_version, k0.kind) with
      | none => simp
      | some s0 =>
        cases s0 with
        | cluster =>
          cases hns0 : k0.nspace with
          | none => exact ih key a s hmem' hlk hbad
          | some nsv => simp
        | namespaced =>
          cases hns0 : k0.nspace with
          | none => simp
          | some nsv => exact ih key a s hmem' hlk hbad

/-- C6: before any action runs, apply_diff validates every key of the plan
against the discovered scope; a cluster-scoped key with a namespace, or a
namespaced key without one, aborts the whole plan with an error and no
action is applied. -/
theorem apply_diff_scope_validation
    (changed : List (KubernetesKey × DiffAction))
    (types : List ((String × String) × Scope)) (clients : List String)
    (key : KubernetesKey) (a : DiffAction) (s : Scope)
    (hmem : (key, a) ∈ changed)
    (hlk : lookupAssoc types (key.api_version, key.kind) = some s)
    (hbad : (s = Scope.cluster ∧ key.nspace ≠ none) ∨
      (s = Scope.namespaced ∧ key.nspace = none)) :
    (applyDiff changed types clients).1 = [] ∧
      (applyDiff changed types clients).2.isSome = true := by
  have hv := validateScopes_fails types changed key a s hmem hlk hbad
  cases hvs : validateScopes types changed with
  | none => rw [hvs] at hv; simp at hv
  | some e =>
    unfold applyDiff
    rw [hvs]
    exact ⟨rfl, rfl⟩

theorem apply_diff_scope_validation_witness :
    (applyDiff [(⟨"d", "Deployment", "apps/v1", none, "c"⟩, DiffAction.delete)]
      [(("apps/v1", "Deployment"), Scope.namespaced)] ["c"]).1 = [] ∧
    (applyDiff [(⟨"d", "Deployment", "apps/v1", none, "c"⟩, DiffAction.delete)]
      [(("apps/v1", "Deployment"), Scope.namespaced)] ["c"]).2.isSome = true :=
  apply_diff_scope_validation
    [(⟨"d", "Deployment", "apps/v1", none, "c"⟩, DiffAction.delete)]
    [(("apps/v1", "Deployment"), Scope.namespaced)] ["c"]
    ⟨"d", "Deployment", "apps/v1", none, "c"⟩ DiffAction.delete Scope.namespaced
    (by simp) rfl (Or.inr ⟨rfl, rfl⟩)

/-- C4 support: an action generated with a present want side is never a
Delete. -/
theorem generateSingleDiff_want_ne_delete (key : KubernetesKey)
    (hOpt : Option DynamicObject) (w : DynamicObject) (a : DiffAction)
    (hok : generateSingleDiff key hOpt (some w) = .ok a) : a ≠ .delete := by
  cases hOpt with
  | some h =>
    simp only [generateSingleDiff] at hok
    cases hty : w.types with
    | none => rw [hty] at hok; simp at hok
    | some t =>
      rw [hty] at hok
      by_cases hrr : requiresRecreate t
          (jsonDiff (dynamicObjectToJson h) (dynamicObjectToJson w) "") = true
      · simp only [hrr, if_true] at hok
        injection hok with hok
        rw [← hok]
        intro hcontra
        cases hcontra
      · simp only [Bool.not_eq_true] at hrr
        simp only [hrr, Bool.false_eq_true, if_false] at hok
        injection hok with hok
        rw [← hok]
        intro hcontra
        cases hcontra
  | none =>
    simp only [generateSingleDiff] at hok
    injection hok with hok
    rw [← hok]
    intro hcontra
    cases hcontra

/-- C4 support: keys survive association-list removal. -/
theorem removeAssoc_map_subset {α β : Type} [DecidableEq α]
    (l : List (α × β)) (k k2 : α)
    (h : k2 ∈ (removeAssoc l k).2.map Prod.fst) : k2 ∈ l.map Prod.fst := by
  induction l with
  | nil => simp [removeAssoc] at h
  | cons hd t ih =>
    obtain ⟨k0, v0⟩ := hd
    rw [List.map_cons]
    by_cases hk : k0 = k
    · subst hk
      rw [show (removeAssoc ((k0, v0) :: t) k0).2 = t by simp [removeAssoc]] at h
      exact List.mem_cons_of_mem _ h
    · rw [show (removeAssoc ((k0, v0) :: t) k).2 = (k0, v0) :: (removeAssoc t k).2 by
        simp [removeAssoc, hk]] at h
      rw [List.map_cons] at h
      rcases List.mem_cons.mp h with h | h
      · exact List.mem_cons.mpr (Or.inl h)
      · exact List.mem_cons_of_mem _ (ih h)

/-- C4 support: every action a want pass emits is a non-Delete for a want
key, and the leftover have keys come from the original have keys. -/
theorem wantPass_changed (wants : List (KubernetesKey × DynamicObject)) :
    ∀ (haves hl : List (KubernetesKey × DynamicObject))
      (ch : List (KubernetesKey × DiffAction)) (af : List KubernetesKey),
    wantPass wants haves = .ok (hl, ch, af) →
    (∀ x ∈ ch, x.2 ≠ DiffAction.delete ∧ x.1 ∈ wants.map Prod.fst) ∧
    (∀ k2 ∈ hl.map Prod.fst, k2 ∈ haves.map Prod.fst) := by
  induction wants with
  | nil =>
    intro haves hl ch af hok
    simp only [wantPass] at hok
    injection hok with hok
    injection hok with h1 hrest
    injection hrest with h2 h3
    subst h1; subst h2
    exact ⟨by simp, fun k2 hk2 => hk2⟩
  | cons hd t ih =>
    intro haves hl ch af hok
    obtain ⟨k, w⟩ := hd
    simp only [wantPass] at hok
    by_cases hsk : (removeAssoc haves k).1 = some w
    · rw [if_pos hsk] at hok
      obtain ⟨p1, p2⟩ := ih (removeAssoc haves k).2 hl ch af hok
      refine ⟨fun x hx => ⟨(p1 x hx).1, by simp [(p1 x hx).2]⟩, ?_⟩
      intro k2 hk2
      exact removeAssoc_map_subset haves k k2 (p2 k2 hk2)
    · rw [if_neg hsk] at hok
      cases hact : generateSingleDiff k (removeAssoc haves k).1 (some w) with
      | error e => rw [hact] at hok; simp [except_bind_error] at hok
      | ok act =>
        rw [hact, except_bind_ok] at hok
        cases hrec : wantPass t (removeAssoc haves k).2 with
        | error e => rw [hrec] at hok; simp [except_bind_error] at hok
        | ok res =>
          obtain ⟨hl', ch', af'⟩ := res
          rw [hrec, except_bind_ok] at hok
          injection hok with hok
          injection hok with h1 hrest
          injection hrest with h2 h3
          subst h1; subst h2
          obtain ⟨p1, p2⟩ := ih (removeAssoc haves k).2 hl' ch' af' hrec
          constructor
          · intro x hx
            rcases List.mem_cons.mp hx with hx | hx
            · subst hx
              exact ⟨generateSingleDiff_want_ne_delete k (removeAssoc haves k).1 w act hact,
                by simp⟩
            · exact ⟨(p1 x hx).1, by simp [(p1 x hx).2]⟩
          · intro k2 hk2
            exact removeAssoc_map_subset haves k k2 (p2 k2 hk2)

/-- C4 support: every action a delete pass emits is a Delete for a leftover
have key. -/
theorem deletePass_changed (after : List KubernetesKey) :
    ∀ (haves : List (KubernetesKey × DynamicObject))
      (ch : List (KubernetesKey × DiffAction)),
    deletePass after haves = .ok ch →
    ∀ x ∈ ch, x.2 = DiffAction.delete ∧ x.1 ∈ haves.map Prod.fst := by
  intro haves
  induction haves with
  | nil =>
    intro ch hok
    simp only [deletePass] at hok
    injection hok with hok
    subst hok
    simp
  | cons hd t ih =>
    intro ch hok
    obtain ⟨k, h⟩ := hd
    simp only [deletePass] at hok
    by_cases hc : after.contains k
    · rw [if_pos hc] at hok
      intro x hx
      obtain ⟨hd2, hm⟩ := ih ch hok x hx
      exact ⟨hd2, by simp [hm]⟩
    · rw [if_neg hc] at hok
      rw [show generateSingleDiff k (some h) none = .ok .delete from rfl,
        except_bind_ok] at hok
      cases hrec : deletePass after t with
      | error e => rw [hrec] at hok; simp [except_bind_error] at hok
      | ok rest =>
        rw [hrec, except_bind_ok] at hok
        injection hok with hok
        subst hok
        intro x hx
        rcases List.mem_cons.mp hx with hx | hx
        · subst hx; exact ⟨rfl, by simp⟩
        · obtain ⟨hd2, hm⟩ := ih rest hrec x hx
          exact ⟨hd2, by simp [hm]⟩

/-- C4 support: an index into an appended list either falls in the left
part (with its bound) or in the right part. -/
theorem getElem_append_side {α : Type} (A B : List α) (i : Nat)
    (h : i < (A ++ B).length) :
    (i < A.length ∧ (A ++ B)[i] ∈ A) ∨ (A.length ≤ i ∧ (A ++ B)[i] ∈ B) := by
  by_cases hlt : i < A.length
  · left
    refine ⟨hlt, ?_⟩
    rw [List.getElem_append_left hlt]
    exact List.getElem_mem _
  · right
    have hle : A.length ≤ i := Nat.le_of_not_lt hlt
    refine ⟨hle, ?_⟩
    rw [List.getElem_append_right hle]
    exact List.getElem_mem _

/-- C4 support: positional dichotomy for a list equal to an append. -/
theorem getElem_append_side_of_eq {α : Type} {l A B : List α} (hEq : l = A ++ B)
    (i : Nat) (hi : i < l.length) :
    (i < A.length ∧ l[i] ∈ A) ∨ (A.length ≤ i ∧ l[i] ∈ B) := by
  subst hEq
  exact getElem_append_side A B i hi

/-- C4: in every plan generate_diff produces, the non-Delete actions of
Namespace objects (the namespaces sub-map) precede every non-Delete action
of non-Namespace objects, and Delete actions of Namespace objects follow
every Delete action of non-Namespace objects: namespaces are created first
and deleted last. -/
theorem namespace_ordering_in_plan
    (hR wR : KubernetesResources) (out : List (KubernetesKey × DiffAction))
    (hns : ∀ k2 ∈ (wR.namespaces.map Prod.fst) ++ (hR.namespaces.map Prod.fst),
      k2.kind = "Namespace")
    (hbk : ∀ k2 ∈ (wR.by_key.map Prod.fst) ++ (hR.by_key.map Prod.fst),
      k2.kind ≠ "Namespace")
    (hok : generateDiff hR wR = .ok out)
    (i j : Nat) (hi : i < out.length) (hj : j < out.length) :
    ((out[i].2 ≠ DiffAction.delete ∧ out[i].1.kind = "Namespace" ∧
      out[j].2 ≠ DiffAction.delete ∧ out[j].1.kind ≠ "Namespace") → i < j) ∧
    ((out[i].2 = DiffAction.delete ∧ out[i].1.kind ≠ "Namespace" ∧
      out[j].2 = DiffAction.delete ∧ out[j].1.kind = "Namespace") → i < j) := by
  simp only [generateDiff] at hok
  cases h1 : wantPass wR.namespaces hR.namespaces with
  | error e => rw [h1] at hok; simp [except_bind_error] at hok
  | ok t1 =>
  obtain ⟨hNs, c1, a1⟩ := t1
  rw [h1, except_bind_ok] at hok
  cases h2 : wantPass wR.by_key hR.by_key with
  | error e => rw [h2] at hok; simp [except_bind_error] at hok
  | ok t2 =>
  obtain ⟨hBk, c2, a2⟩ := t2
  rw [h2, except_bind_ok] at hok
  cases h3 : deletePass (a1 ++ a2) hBk with
  | error e => rw [h3] at hok; simp [except_bind_error] at hok
  | ok c3 =>
  rw [h3, except_bind_ok] at hok
  cases h4 : deletePass (a1 ++ a2) hNs with
  | error e => rw [h4] at hok; simp [except_bind_error] at hok
  | ok c4 =>
  rw [h4, except_bind_ok] at hok
  injection hok with hout
  obtain ⟨w1a, w1b⟩ := wantPass_changed wR.namespaces hR.namespaces hNs c1 a1 h1
  obtain ⟨w2a, w2b⟩ := wantPass_changed wR.by_key hR.by_key hBk c2 a2 h2
  have P1 : ∀ x ∈ c1, x.2 ≠ DiffAction.delete ∧ x.1.kind = "Namespace" := by
    intro x hx
    obtain ⟨hnd, hmem⟩ := w1a x hx
    exact ⟨hnd, hns x.1 (List.mem_append_left _ hmem)⟩
  have P2 : ∀ x ∈ c2, x.2 ≠ DiffAction.delete ∧ x.1.kind ≠ "Namespace" := by
    intro x hx
    obtain ⟨hnd, hmem⟩ := w2a x hx
    exact ⟨hnd, hbk x.1 (List.mem_append_left _ hmem)⟩
  have P3 : ∀ x ∈ c3, x.2 = DiffAction.delete ∧ x.1.kind ≠ "Namespace" := by
    intro x hx
    obtain ⟨hd2, hmem⟩ := deletePass_changed (a1 ++ a2) hBk c3 h3 x hx
    exact ⟨hd2, hbk x.1 (List.mem_append_right _ (w2b x.1 hmem))⟩
  have P4 : ∀ x ∈ c4, x.2 = DiffAction.delete ∧ x.1.kind = "Namespace" := by
    intro x hx
    obtain ⟨hd2, hmem⟩ := deletePass_changed (a1 ++ a2) hNs c4 h4 x hx
    exact ⟨hd2, hns x.1 (List.mem_append_right _ (w1b x.1 hmem))⟩
  have e2 : out = ((c1 ++ c2) ++ c3) ++ c4 := hout.symm
  have e1 : out = c1 ++ (c2 ++ (c3 ++ c4)) := by
    rw [e2]; simp [List.append_assoc]
  constructor
  · rintro ⟨hind, hins, hjnd, hjns⟩
    have hiLT : i < c1.length := by
      by_contra hcon
      rcases getElem_append_side_of_eq e1 i hi with ⟨hlt, _⟩ | ⟨_, hmem⟩
      · exact hcon hlt
      · rcases List.mem_append.mp hmem with hm | hm
        · exact (P2 _ hm).2 hins
        · rcases List.mem_append.mp hm with hm2 | hm2
          · exact hind (P3 _ hm2).1
          · exact hind (P4 _ hm2).1
    have hjGE : c1.length ≤ j := by
      by_contra hcon
      rcases getElem_append_side_of_eq e1 j hj with ⟨_, hmem⟩ | ⟨hge, _⟩
      · exact hjns (P1 _ hmem).2
      · exact hcon hge
    omega
  · rintro ⟨hid, hins, hjd, hjns⟩
    have hiLT : i < ((c1 ++ c2) ++ c3).length := by
      by_contra hcon
      rcases getElem_append_side_of_eq e2 i hi with ⟨hlt, _⟩ | ⟨_, hmem⟩
      · exact hcon hlt
      · exact hins (P4 _ hmem).2
    have hjGE : ((c1 ++ c2) ++ c3).length ≤ j := by
      by_contra hcon
      rcases getElem_append_side_of_eq e2 j hj with ⟨_, hmem⟩ | ⟨hge, _⟩
      · rcases List.mem_append.mp hmem with hm | hm
        · rcases List.mem_append.mp hm with hm2 | hm2
          · exact (P1 _ hm2).1 hjd
          · exact (P2 _ hm2).1 hjd
        · exact (P3 _ hm).2 hjns
      · exact hcon hge
    omega

def nsPlanHave : KubernetesResources :=
  { by_key := [(⟨"d0", "Deployment", "apps/v1", some "ns0", "c"⟩,
      { types := some { api_version := "apps/v1", kind := "Deployment" } })],
    namespaces := [(⟨"ns0", "Namespace", "v1", none, "c"⟩,
      { types := some { api_version := "v1", kind := "Namespace" } })] }

def nsPlanWant : KubernetesResources :=
  { by_key := [(⟨"d1", "Deployment", "apps/v1", some "ns1", "c"⟩,
      { types := some { api_version := "apps/v1", kind := "Deployment" } })],
    namespaces := [(⟨"ns1", "Namespace", "v1", none, "c"⟩,
      { types := some { api_version := "v1", kind := "Namespace" } })] }

def nsPlanOut : List (KubernetesKey × DiffAction) :=
  [(⟨"ns1", "Namespace", "v1", none, "c"⟩,
    .create { types := some { api_version := "v1", kind := "Namespace" } }),
   (⟨"d1", "Deployment", "apps/v1", some "ns1", "c"⟩,
    .create { types := some { api_version := "apps/v1", kind := "Deployment" } }),
   (⟨"d0", "Deployment", "apps/v1", some "ns0", "c"⟩, .delete),
   (⟨"ns0", "Namespace", "v1", none, "c"⟩, .delete)]

theorem namespace_ordering_in_plan_witness : (0 : Nat) < 1 :=
  (namespace_ordering_in_plan nsPlanHave nsPlanWant nsPlanOut
    (by intro k2 hk2; simp [nsPlanWant, nsPlanHave] at hk2;
        rcases hk2 with h | h <;> simp [h])
    (by intro k2 hk2; simp [nsPlanWant, nsPlanHave] at hk2;
        rcases hk2 with h | h <;> simp [h])
    rfl 0 1 (by simp [nsPlanOut]) (by simp [nsPlanOut])).1
    (by refine ⟨?_, ?_, ?_, ?_⟩ <;> simp [nsPlanOut])

/-! Map lemmas for the munge_secrets proof. -/

theorem objInsert_lookup_self (l : List (String × Json)) (k : String) (v : Json) :
    jlookup (objInsert l k v) k = some v := by
  induction l with
  | nil => simp [objInsert, jlookup]
  | cons hd t ih =>
    obtain ⟨k0, v0⟩ := hd
    by_cases hk : k0 = k
    · subst hk; simp [objInsert, jlookup]
    · simp [objInsert, hk, jlookup, ih]

theorem objInsert_lookup_ne (l : List (String × Json)) (k k' : String) (v : Json)
    (h : k' ≠ k) : jlookup (objInsert l k v) k' = jlookup l k' := by
  induction l with
  | nil => simp [objInsert, jlookup, Ne.symm h]
  | cons hd t ih =>
    obtain ⟨k0, v0⟩ := hd
    by_cases hk : k0 = k
    · subst hk
      simp [objInsert, jlookup, Ne.symm h]
    · by_cases hk' : k0 = k'
      · subst hk'; simp [objInsert, hk, jlookup]
      · simp [objInsert, hk, jlookup, hk', ih]

theorem eraseKey_lookup_ne (l : List (String × Json)) (k k' : String) (h : k' ≠ k) :
    jlookup (eraseKey l k) k' = jlookup l k' := by
  induction l with
  | nil => rfl
  | cons hd t ih =>
    obtain ⟨k0, v0⟩ := hd
    by_cases hk : k0 = k
    · subst hk
      rw [show eraseKey ((k0, v0) :: t) k0 = t by simp [eraseKey, removeKey]]
      rw [show jlookup ((k0, v0) :: t) k' = jlookup t k' by
        simp only [jlookup, if_neg (fun hcon : k0 = k' => h hcon.symm)]]
    · rw [show eraseKey ((k0, v0) :: t) k = (k0, v0) :: (eraseKey t k) by
        simp [eraseKey, removeKey, hk]]
      by_cases hk' : k0 = k'
      · subst hk'; simp [jlookup]
      · simp only [jlookup, if_neg hk']
        exact ih

theorem removeKey_map_subset (l : List (String × Json)) (k k2 : String)
    (h : k2 ∈ (removeKey l k).2.map Prod.fst) : k2 ∈ l.map Prod.fst := by
  induction l with
  | nil => simp [removeKey] at h
  | cons hd t ih =>
    obtain ⟨k0, v0⟩ := hd
    rw [List.map_cons]
    by_cases hk : k0 = k
    · subst hk
      rw [show (removeKey ((k0, v0) :: t) k0).2 = t by simp [removeKey]] at h
      exact List.mem_cons_of_mem _ h
    · rw [show (removeKey ((k0, v0) :: t) k).2 = (k0, v0) :: (removeKey t k).2 by
        simp [removeKey, hk]] at h
      rw [List.map_cons] at h
      rcases List.mem_cons.mp h with h | h
      · exact List.mem_cons.mpr (Or.inl h)
      · exact List.mem_cons_of_mem _ (ih h)

theorem eraseKey_keys_nodup (l : List (String × Json)) (k : String)
    (h : (l.map Prod.fst).Nodup) : ((eraseKey l k).map Prod.fst).Nodup := by
  induction l with
  | nil => simp [eraseKey, removeKey]
  | cons hd t ih =>
    obtain ⟨k0, v0⟩ := hd
    rw [List.map_cons, List.nodup_cons] at h
    by_cases hk : k0 = k
    · subst hk
      rw [show eraseKey ((k0, v0) :: t) k0 = t by simp [eraseKey, removeKey]]
      exact h.2
    · rw [show eraseKey ((k0, v0) :: t) k = (k0, v0) :: (eraseKey t k) by
        simp [eraseKey, removeKey, hk]]
      rw [List.map_cons, List.nodup_cons]
      refine ⟨fun hmem => h.1 (removeKey_map_subset t k k0 hmem), ih h.2⟩

theorem jlookup_eq_none_of_not_mem (l : List (String × Json)) (k : String)
    (h : k ∉ l.map Prod.fst) : jlookup l k = none := by
  induction l with
  | nil => rfl
  | cons hd t ih =>
    obtain ⟨k0, v0⟩ := hd
    rw [List.map_cons, List.mem_cons] at h
    push_neg at h
    simp only [jlookup, if_neg (fun hcon : k0 = k => h.1 hcon.symm)]
    exact ih h.2

theorem eraseKey_lookup_self_nodup (l : List (String × Json)) (k : String)
    (h : (l.map Prod.fst).Nodup) : jlookup (eraseKey l k) k = none := by
  induction l with
  | nil => rfl
  | cons hd t ih =>
    obtain ⟨k0, v0⟩ := hd
    rw [List.map_cons, List.nodup_cons] at h
    by_cases hk : k0 = k
    · subst hk
      rw [show eraseKey ((k0, v0) :: t) k0 = t by simp [eraseKey, removeKey]]
      exact jlookup_eq_none_of_not_mem t k0 h.1
    · rw [show eraseKey ((k0, v0) :: t) k = (k0, v0) :: (eraseKey t k) by
        simp [eraseKey, removeKey, hk]]
      simp only [jlookup, if_neg hk]
      exact ih h.2

theorem foldl_eraseKey_preserves_none (ks : List String) :
    ∀ (l : List (String × Json)) (k : String), jlookup l k = none →
    jlookup (ks.foldl eraseKey l) k = none := by
  induction ks with
  | nil => intro l k h; exact h
  | cons k0 kt ih =>
    intro l k h
    simp only [List.foldl_cons]
    exact ih (eraseKey l k0) k (removeKey_lookup_none_preserved h)

theorem foldl_eraseKey_absent (ks : List String) :
    ∀ (l : List (String × Json)) (k : String), (l.map Prod.fst).Nodup → k ∈ ks →
    jlookup (ks.foldl eraseKey l) k = none := by
  induction ks with
  | nil => intro l k _ hmem; simp at hmem
  | cons k0 kt ih =>
    intro l k hnd hmem
    simp only [List.foldl_cons]
    rcases List.mem_cons.mp hmem with heq | hmem'
    · subst heq
      exact foldl_eraseKey_preserves_none kt (eraseKey l k) k
        (eraseKey_lookup_self_nodup l k hnd)
    · exact ih (eraseKey l k0) k (eraseKey_keys_nodup l k0 hnd) hmem'

theorem hasKey_isSome (l : List (String × Json)) (k : String) :
    hasKey l k = (jlookup l k).isSome := by
  induction l with
  | nil => rfl
  | cons hd t ih =>
    obtain ⟨k0, v0⟩ := hd
    by_cases hk : k0 = k
    · subst hk; simp [hasKey, jlookup]
    · simp [hasKey, jlookup, hk, ih]

theorem insertAll_lookup (fdd : List (String × Json)) :
    ∀ (tdd : List (String × Json)) (k : String), (fdd.map Prod.fst).Nodup →
    jlookup (fdd.foldl (fun acc kv => objInsert acc kv.1 kv.2) tdd) k =
      (match jlookup fdd k with
       | some v => some v
       | none => jlookup tdd k) := by
  induction fdd with
  | nil => intro tdd k _; rfl
  | cons hd ft ih =>
    intro tdd k hnd
    obtain ⟨k0, v0⟩ := hd
    rw [List.map_cons, List.nodup_cons] at hnd
    simp only [List.foldl_cons]
    rw [ih (objInsert tdd k0 v0) k hnd.2]
    by_cases hk : k0 = k
    · subst hk
      rw [jlookup_eq_none_of_not_mem ft k0 hnd.1]
      simp only [jlookup, if_pos rfl]
      exact objInsert_lookup_self tdd k0 v0
    · simp only [jlookup, if_neg hk]
      cases jlookup ft k with
      | some v => rfl
      | none => exact objInsert_lookup_ne tdd k0 k v0 (Ne.symm hk)

theorem placeholder_map_lookup (fdd : List (String × Json)) (l : List (String × Json))
    (k : String) :
    jlookup (l.map (fun kv => (kv.1, if hasKey fdd kv.1 then kv.2 else placeholderB64))) k =
      (jlookup l k).map (fun v => if hasKey fdd k then v else placeholderB64) := by
  induction l with
  | nil => rfl
  | cons hd t ih =>
    obtain ⟨k1, v1⟩ := hd
    rw [List.map_cons]
    by_cases hk : k1 = k
    · subst hk
      simp [jlookup]
    · simp only [jlookup, if_neg hk]
      exact ih

theorem placeholder_all_lookup (l : List (String × Json)) (k : String) :
    jlookup (l.map (fun kv => (kv.1, placeholderB64))) k =
      (jlookup l k).map (fun _ => placeholderB64) := by
  induction l with
  | nil => rfl
  | cons hd t ih =>
    obtain ⟨k1, v1⟩ := hd
    rw [List.map_cons]
    by_cases hk : k1 = k
    · subst hk
      simp [jlookup]
    · simp only [jlookup, if_neg hk]
      exact ih

/-- Lookups other than "stringData" pass through the stringData pass
unchanged. -/
theorem mungeStringData_lookup_ne (t : List (String × Json))
    (fd : Option (List (String × Json))) (k : String) (h : k ≠ "stringData") :
    jlookup (mungeStringData t fd) k = jlookup t k := by
  unfold mungeStringData
  cases hsd : (jlookup t "stringData").bind asObj with
  | none => rfl
  | some tsd =>
    by_cases hlen : (((fd.getD []).map Prod.fst).foldl eraseKey tsd).length = 0
    · simp only [if_pos hlen]
      exact eraseKey_lookup_ne t "stringData" k h
    · simp only [if_neg hlen]
      exact objInsert_lookup_ne t "stringData" k _ h

theorem objInsert_map_fst_mem (l : List (String × Json)) (k k2 : String) (v : Json)
    (h : k2 ∈ (objInsert l k v).map Prod.fst) : k2 ∈ l.map Prod.fst ∨ k2 = k := by
  induction l with
  | nil => simpa [objInsert] using h
  | cons hd t ih =>
    obtain ⟨k0, v0⟩ := hd
    by_cases hk : k0 = k
    · subst hk
      rw [show objInsert ((k0, v0) :: t) k0 v = (k0, v) :: t by simp [objInsert]] at h
      rw [List.map_cons] at h
      rcases List.mem_cons.mp h with h | h
      · exact Or.inr h
      · exact Or.inl (List.mem_cons_of_mem _ h)
    · rw [show objInsert ((k0, v0) :: t) k v = (k0, v0) :: objInsert t k v by
        simp [objInsert, hk]] at h
      rw [List.map_cons] at h
      rcases List.mem_cons.mp h with h | h
      · exact Or.inl (by rw [List.map_cons]; exact List.mem_cons.mpr (Or.inl h))
      · rcases ih h with h2 | h2
        · exact Or.inl (by rw [List.map_cons]; exact List.mem_cons_of_mem _ h2)
        · exact Or.inr h2

theorem objInsert_keys_nodup (l : List (String × Json)) (k : String) (v : Json)
    (h : (l.map Prod.fst).Nodup) : ((objInsert l k v).map Prod.fst).Nodup := by
  induction l with
  | nil => simp [objInsert]
  | cons hd t ih =>
    obtain ⟨k0, v0⟩ := hd
    rw [List.map_cons, List.nodup_cons] at h
    by_cases hk : k0 = k
    · subst hk
      rw [show objInsert ((k0, v0) :: t) k0 v = (k0, v) :: t by simp [objInsert]]
      rw [List.map_cons, List.nodup_cons]
      exact h
    · rw [show objInsert ((k0, v0) :: t) k v = (k0, v0) :: objInsert t k v by
        simp [objInsert, hk]]
      rw [List.map_cons, List.nodup_cons]
      refine ⟨fun hmem => ?_, ih h.2⟩
      rcases objInsert_map_fst_mem t k k0 v hmem with h2 | h2
      · exact h.1 h2
      · exact hk h2

theorem jlookup_some_mem_keys (l : List (String × Json)) (k : String) (v : Json)
    (h : jlookup l k = some v) : k ∈ l.map Prod.fst := by
  induction l with
  | nil => simp [jlookup] at h
  | cons hd t ih =>
    obtain ⟨k0, v0⟩ := hd
    rw [List.map_cons]
    by_cases hk : k0 = k
    · subst hk; exact List.mem_cons.mpr (Or.inl rfl)
    · simp only [jlookup, if_neg hk] at h
      exact List.mem_cons_of_mem _ (ih h)

/-- C7: munge_secrets on a v1/Secret.  With a prior data map every prior
key is copied over (overwriting) and every key only in the new data map
becomes the placeholder; with no prior version every value of the new data
map becomes the placeholder; stringData keys colliding with prior data keys
are removed, and stringData is removed entirely when it becomes empty. -/
theorem munge_secrets_spec :
    (∀ (fromO toV : DynamicObject) (t tdd fdd : List (String × Json)) (r : DynamicObject),
      toV.types = some { api_version := "v1", kind := "Secret" } →
      asObj toV.data = some t →
      (((asObj fromO.data).bind (fun o => jlookup o "data")).bind asObj) = some fdd →
      asObj ((jlookup t "data").getD (.obj [])) = some tdd →
      (fdd.map Prod.fst).Nodup →
      mungeSecrets (some fromO) toV = .ok r →
      ∃ t2 tdd2, asObj r.data = some t2 ∧ jlookup t2 "data" = some (.obj tdd2) ∧
        (∀ k v, jlookup fdd k = some v → jlookup tdd2 k = some v) ∧
        (∀ k v, jlookup fdd k = none → jlookup tdd k = some v →
          jlookup tdd2 k = some placeholderB64)) ∧
    (∀ (toV : DynamicObject) (t tdd : List (String × Json)) (r : DynamicObject),
      toV.types = some { api_version := "v1", kind := "Secret" } →
      asObj toV.data = some t →
      (jlookup t "data").bind asObj = some tdd →
      mungeSecrets none toV = .ok r →
      ∃ t2, asObj r.data = some t2 ∧
        jlookup t2 "data" = some (.obj (tdd.map (fun kv => (kv.1, placeholderB64))))) ∧
    (∀ (fromO toV : DynamicObject) (t fdd tsd : List (String × Json)) (r : DynamicObject),
      toV.types = some { api_version := "v1", kind := "Secret" } →
      asObj toV.data = some t →
      (((asObj fromO.data).bind (fun o => jlookup o "data")).bind asObj) = some fdd →
      (jlookup t "stringData").bind asObj = some tsd →
      (t.map Prod.fst).Nodup →
      (tsd.map Prod.fst).Nodup →
      mungeSecrets (some fromO) toV = .ok r →
      ∃ t2, asObj r.data = some t2 ∧
        (∀ k tsd2, hasKey fdd k = true → jlookup t2 "stringData" = some (.obj tsd2) →
          jlookup tsd2 k = none) ∧
        ((fdd.map Prod.fst).foldl eraseKey tsd = [] →
          jlookup t2 "stringData" = none)) := by
  refine ⟨?_, ?_, ?_⟩
  · intro fromO toV t tdd fdd r hty hT hfd htdd hnd hok
    unfold mungeSecrets at hok
    rw [hty] at hok
    simp only [Option.some_bind] at hok
    rw [hfd, hT] at hok
    simp only [beq_self_eq_true, Bool.and_self, Bool.not_true, Bool.false_eq_true,
      if_false, reduceIte] at hok
    rw [htdd] at hok
    injection hok with hok
    subst hok
    refine ⟨_, (List.foldl (fun acc kv => objInsert acc kv.1 kv.2) tdd fdd).map
      (fun kv => (kv.1, if hasKey fdd kv.1 then kv.2 else placeholderB64)), rfl, ?_, ?_, ?_⟩
    · rw [mungeStringData_lookup_ne _ _ _ (by decide)]
      exact objInsert_lookup_self t "data" _
    · intro k v hkv
      rw [placeholder_map_lookup, insertAll_lookup fdd tdd k hnd, hkv]
      have hk : hasKey fdd k = true := by rw [hasKey_isSome, hkv]; rfl
      simp [hk]
    · intro k v hnone htv
      rw [placeholder_map_lookup, insertAll_lookup fdd tdd k hnd, hnone, htv]
      have hk : hasKey fdd k = false := by rw [hasKey_isSome, hnone]; rfl
      simp [hk]
  · intro toV t tdd r hty hT htdd hok
    unfold mungeSecrets at hok
    rw [hty] at hok
    simp only [Option.none_bind] at hok
    rw [hT] at hok
    simp only [beq_self_eq_true, Bool.and_self, Bool.not_true, Bool.false_eq_true,
      if_false, reduceIte] at hok
    rw [htdd] at hok
    injection hok with hok
    subst hok
    refine ⟨_, rfl, ?_⟩
    rw [mungeStringData_lookup_ne _ _ _ (by decide)]
    exact objInsert_lookup_self t "data" _
  · intro fromO toV t fdd tsd r hty hT hfd hsd hndT hndS hok
    unfold mungeSecrets at hok
    rw [hty] at hok
    simp only [Option.some_bind] at hok
    rw [hfd, hT] at hok
    simp only [beq_self_eq_true, Bool.and_self, Bool.not_true, Bool.false_eq_true,
      if_false, reduceIte] at hok
    cases htdd : asObj ((jlookup t "data").getD (.obj [])) with
    | none => rw [htdd] at hok; simp at hok
    | some tdd =>
    rw [htdd] at hok
    injection hok with hok
    subst hok
    have hT1sd : jlookup (objInsert t "data"
        (.obj ((List.foldl (fun acc kv => objInsert acc kv.1 kv.2) tdd fdd).map
          (fun kv => (kv.1, if hasKey fdd kv.1 then kv.2 else placeholderB64)))))
        "stringData" = jlookup t "stringData" :=
      objInsert_lookup_ne t "data" "stringData" _ (by decide)
    have hnd1 : ((objInsert t "data"
        (.obj ((List.foldl (fun acc kv => objInsert acc kv.1 kv.2) tdd fdd).map
          (fun kv => (kv.1, if hasKey fdd kv.1 then kv.2 else placeholderB64))))).map
        Prod.fst).Nodup :=
      objInsert_keys_nodup t "data" _ hndT
    refine ⟨_, rfl, ?_, ?_⟩
    · intro k tsd2 hhk hlk2
      unfold mungeStringData at hlk2
      rw [hT1sd, hsd] at hlk2
      simp only [Option.getD, List.map] at hlk2
      by_cases hlen : ((fdd.map Prod.fst).foldl eraseKey tsd).length = 0
      · rw [if_pos hlen] at hlk2
        rw [eraseKey_lookup_self_nodup _ _ hnd1] at hlk2
        simp at hlk2
      · rw [if_neg hlen] at hlk2
        rw [objInsert_lookup_self] at hlk2
        injection hlk2 with hlk2
        injection hlk2 with hlk2
        subst hlk2
        have hksome : (jlookup fdd k).isSome := by rw [← hasKey_isSome, hhk]
        obtain ⟨v, hv⟩ := Option.isSome_iff_exists.mp hksome
        exact foldl_eraseKey_absent (fdd.map Prod.fst) tsd k hndS
          (jlookup_some_mem_keys fdd k v hv)
    · intro hempty
      unfold mungeStringData
      rw [hT1sd, hsd]
      simp only [Option.getD, List.map]
      rw [if_pos (by rw [hempty]; rfl)]
      exact eraseKey_lookup_self_nodup _ _ hnd1

def mungeFrom0 : DynamicObject :=
  { types := some { api_version := "v1", kind := "Secret" },
    data := .obj [("data", .obj [("password", .str "OLD")])] }

def mungeTo0 : DynamicObject :=
  { types := some { api_version := "v1", kind := "Secret" },
    data := .obj [("data", .obj [("password", .str "NEW"), ("api_key", .str "NEW")])] }

def mungeResult0 : DynamicObject :=
  { types := some { api_version := "v1", kind := "Secret" },
    data := .obj [("data", .obj [("password", .str "OLD"),
      ("api_key", .str "c29tZSBzdHVmZg==")])] }

theorem munge_secrets_spec_witness :
    ∃ t2 tdd2, asObj mungeResult0.data = some t2 ∧ jlookup t2 "data" = some (.obj tdd2) ∧
      (∀ k v, jlookup [("password", Json.str "OLD")] k = some v →
        jlookup tdd2 k = some v) ∧
      (∀ k v, jlookup [("password", Json.str "OLD")] k = none →
        jlookup [("password", Json.str "NEW"), ("api_key", Json.str "NEW")] k = some v →
        jlookup tdd2 k = some placeholderB64) :=
  munge_secrets_spec.1 mungeFrom0 mungeTo0
    [("data", .obj [("password", .str "NEW"), ("api_key", .str "NEW")])]
    [("password", .str "NEW"), ("api_key", .str "NEW")]
    [("password", .str "OLD")]
    mungeResult0 rfl rfl rfl rfl (by decide) rfl

/-! Array-free JSON values, for the idempotence theorem of the merger. -/

mutual

/-- A JSON value containing no arrays at any depth. -/
def arrayFree : Json → Bool
  | .null => true
  | .bool _ => true
  | .num _ => true
  | .str _ => true
  | .arr _ => false
  | .obj fields => arrayFreeF fields
termination_by structural j => j

/-- All values of an association list are array-free. -/
def arrayFreeF : List (String × Json) → Bool
  | [] => true
  | (_, v) :: t => arrayFree v && arrayFreeF t
termination_by structural l => l

end

theorem removeKey_val_arrayFree (W : List (String × Json)) (k : String)
    (aw : arrayFreeF W = true) : arrayFree (((removeKey W k).1).getD .null) = true := by
  induction W with
  | nil => rfl
  | cons hd t ih =>
    obtain ⟨k0, v0⟩ := hd
    have h2 : arrayFree v0 = true ∧ arrayFreeF t = true := by
      simpa [arrayFreeF, Bool.and_eq_true] using aw
    by_cases hk : k0 = k
    · subst hk
      rw [removeKey_head]
      exact h2.1
    · rw [show removeKey ((k0, v0) :: t) k = ((removeKey t k).1, (k0, v0) :: (removeKey t k).2)
        from by simp [removeKey, hk]]
      exact ih h2.2

theorem removeKey_rest_arrayFree (W : List (String × Json)) (k : String)
    (aw : arrayFreeF W = true) : arrayFreeF (removeKey W k).2 = true := by
  induction W with
  | nil => rfl
  | cons hd t ih =>
    obtain ⟨k0, v0⟩ := hd
    have h2 : arrayFree v0 = true ∧ arrayFreeF t = true := by
      simpa [arrayFreeF, Bool.and_eq_true] using aw
    by_cases hk : k0 = k
    · subst hk
      rw [removeKey_head]
      exact h2.2
    · rw [show removeKey ((k0, v0) :: t) k = ((removeKey t k).1, (k0, v0) :: (removeKey t k).2)
        from by simp [removeKey, hk]]
      simp only [arrayFreeF, Bool.and_eq_true]
      exact ⟨h2.1, ih h2.2⟩

mutual

/-- Merging an array-free value against itself with null managed is the
identity. -/
theorem cuf_self : ∀ (h : Json) (path : List String), arrayFree h = true →
    copyUnmanagedFields h h .null path = .ok (h, [])
  | .null, _, _ => rfl
  | .bool _, _, _ => rfl
  | .num _, _, _ => rfl
  | .str _, _, _ => rfl
  | .arr _, _, ah => by simp [arrayFree] at ah
  | .obj fs, path, ah => by
    have hrec := cufObjNull_self fs path (by simpa [arrayFree] using ah)
    show (do
      let (copy, rem, rps) ← cufObjNull fs fs path
      Except.ok (Json.obj (copy ++ rem), rps)) = .ok (.obj fs, [])
    rw [hrec, except_bind_ok]
    simp

theorem cufObjNull_self : ∀ (fs : List (String × Json)) (path : List String),
    arrayFreeF fs = true → cufObjNull fs fs path = .ok (fs, [], [])
  | [], _, _ => rfl
  | (k, v) :: t, path, af => by
    have h2 : arrayFree v = true ∧ arrayFreeF t = true := by
      simpa [arrayFreeF, Bool.and_eq_true] using af
    show (do
      let (nv, rp1) ← copyUnmanagedFields v (((removeKey ((k, v) :: t) k).1).getD .null)
        .null (path ++ [k])
      let (copyRest, remFinal, rp2) ← cufObjNull t (removeKey ((k, v) :: t) k).2 path
      Except.ok ((k, nv) :: copyRest, remFinal, rp1 ++ rp2)) = .ok ((k, v) :: t, [], [])
    rw [removeKey_head]
    simp only [Option.getD_some]
    rw [cuf_self v (path ++ [k]) h2.1, except_bind_ok,
      cufObjNull_self t path h2.2, except_bind_ok]
    rfl

end

/-- Re-merging is a no-op whenever the first merge just returned a fixed
value with no patches and merging that value again returns it unchanged. -/
theorem cuf_samecall_helper (h w m : Json) (path : List String) (r v : Json)
    (rs : List String)
    (e1 : copyUnmanagedFields h w m path = .ok (v, []))
    (e2 : copyUnmanagedFields h v m path = .ok (v, []))
    (hok : copyUnmanagedFields h w m path = .ok (r, rs)) :
    copyUnmanagedFields h r m path = .ok (r, rs) := by
  rw [e1] at hok
  injection hok with hp
  injection hp with h1 h2
  subst h1; subst h2
  exact e2

mutual

/-- The merger is idempotent on array-free have and want. -/
theorem cuf_idem : ∀ (h w m : Json) (path : List String) (r : Json) (rs : List String),
    arrayFree h = true → arrayFree w = true →
    copyUnmanagedFields h w m path = .ok (r, rs) →
    copyUnmanagedFields h r m path = .ok (r, rs)
  | .arr _, _, _, _, _, _ => by intro ah _ _; simp [arrayFree] at ah
  | .null, .arr _, _, _, _, _ => by intro _ aw _; simp [arrayFree] at aw
  | .bool _, .arr _, _, _, _, _ => by intro _ aw _; simp [arrayFree] at aw
  | .num _, .arr _, _, _, _, _ => by intro _ aw _; simp [arrayFree] at aw
  | .str _, .arr _, _, _, _, _ => by intro _ aw _; simp [arrayFree] at aw
  | .obj _, .arr _, _, _, _, _ => by intro _ aw _; simp [arrayFree] at aw
  | .str s, .num n, m, path, r, rs => by
    intro _ _ hok
    exact cuf_samecall_helper _ _ _ _ _ (.str (toString n)) _
      (by cases m <;> rfl) (by cases m <;> rfl) hok
  | .null, .null, .null, path, r, rs => by
    intro ah _ hok
    exact cuf_samecall_helper _ _ _ _ _ .null _ (cuf_want_null_null .null path)
      (cuf_want_null_null .null path) hok
  | .bool b, .null, .null, path, r, rs => by
    intro ah _ hok
    refine cuf_samecall_helper _ _ _ _ _ _ _ (cuf_want_null_null _ path) ?_ hok
    exact cuf_self (.bool b) path ah
  | .num n, .null, .null, path, r, rs => by
    intro ah _ hok
    refine cuf_samecall_helper _ _ _ _ _ _ _ (cuf_want_null_null _ path) ?_ hok
    exact cuf_self (.num n) path ah
  | .str s, .null, .null, path, r, rs => by
    intro ah _ hok
    refine cuf_samecall_helper _ _ _ _ _ _ _ (cuf_want_null_null _ path) ?_ hok
    exact cuf_self (.str s) path ah
  | .obj hf, .null, .null, path, r, rs => by
    intro ah _ hok
    refine cuf_samecall_helper _ _ _ _ _ _ _ (cuf_want_null_null _ path) ?_ hok
    exact cuf_self (.obj hf) path ah
  | h, .null, .obj mf, path, r, rs => by
    intro _ _ hok
    exact cuf_samecall_helper _ _ _ _ _ .null _ (by cases h <;> rfl) (by cases h <;> rfl) hok
  | h, .null, .bool b2, path, r, rs => by
    intro _ _ hok
    exact cuf_samecall_helper _ _ _ _ _ .null _ (by cases h <;> rfl) (by cases h <;> rfl) hok
  | h, .null, .num n2, path, r, rs => by
    intro _ _ hok
    exact cuf_samecall_helper _ _ _ _ _ .null _ (by cases h <;> rfl) (by cases h <;> rfl) hok
  | h, .null, .str s2, path, r, rs => by
    intro _ _ hok
    exact cuf_samecall_helper _ _ _ _ _ .null _ (by cases h <;> rfl) (by cases h <;> rfl) hok
  | h, .null, .arr a2, path, r, rs => by
    intro _ _ hok
    exact cuf_samecall_helper _ _ _ _ _ .null _ (by cases h <;> rfl) (by cases h <;> rfl) hok
  | .obj hf, .obj wf, .obj mf, path, r, rs => by
    intro ah aw hok
    have afh : arrayFreeF hf = true := by simpa [arrayFree] using ah
    have afw : arrayFreeF wf = true := by simpa [arrayFree] using aw
    rw [show copyUnmanagedFields (.obj hf) (.obj wf) (.obj mf) path =
      (do
        let (copy, rem, rps) ← cufObjM hf wf mf path
        Except.ok (Json.obj (copy ++ rem), rps)) from rfl] at hok
    cases hrec : cufObjM hf wf mf path with
    | error e => rw [hrec] at hok; simp [except_bind_error] at hok
    | ok res =>
      obtain ⟨C, R, rps0⟩ := res
      rw [hrec, except_bind_ok] at hok
      injection hok with hp
      injection hp with h1 h2
      subst h1; subst h2
      have h2nd := cufObjM_idem hf wf mf path C R rps0 afh afw hrec
      show (do
        let (copy, rem, rps) ← cufObjM hf (C ++ R) mf path
        Except.ok (Json.obj (copy ++ rem), rps)) = .ok (.obj (C ++ R), rps0)
      rw [h2nd, except_bind_ok]
  | .obj hf, .obj wf, .null, path, r, rs => by
    intro ah aw hok
    have afh : arrayFreeF hf = true := by simpa [arrayFree] using ah
    have afw : arrayFreeF wf = true := by simpa [arrayFree] using aw
    rw [show copyUnmanagedFields (.obj hf) (.obj wf) .null path =
      (do
        let (copy, rem, rps) ← cufObjNull hf wf path
        Except.ok (Json.obj (copy ++ rem), rps)) from rfl] at hok
    cases hrec : cufObjNull hf wf path with
    | error e => rw [hrec] at hok; simp [except_bind_error] at hok
    | ok res =>
      obtain ⟨C, R, rps0⟩ := res
      rw [hrec, except_bind_ok] at hok
      injection hok with hp
      injection hp with h1 h2
      subst h1; subst h2
      have h2nd := cufObjNull_idem hf wf path C R rps0 afh afw hrec
      show (do
        let (copy, rem, rps) ← cufObjNull hf (C ++ R) path
        Except.ok (Json.obj (copy ++ rem), rps)) = .ok (.obj (C ++ R), rps0)
      rw [h2nd, except_bind_ok]
  | .obj hf, .obj wf, .bool b2, path, r, rs => by
    intro _ _ hok
    exact cuf_samecall_helper _ _ _ _ _ (.obj wf) _ (by rfl) (by rfl) hok
  | .obj hf, .obj wf, .num n2, path, r, rs => by
    intro _ _ hok
    exact cuf_samecall_helper _ _ _ _ _ (.obj wf) _ (by rfl) (by rfl) hok
  | .obj hf, .obj wf, .str s2, path, r, rs => by
    intro _ _ hok
    exact cuf_samecall_helper _ _ _ _ _ (.obj wf) _ (by rfl) (by rfl) hok
  | .obj hf, .obj wf, .arr a2, path, r, rs => by
    intro _ _ hok
    exact cuf_samecall_helper _ _ _ _ _ (.obj wf) _ (by rfl) (by rfl) hok
  | .obj hf, .bool b, m, path, r, rs => by
    intro _ _ hok
    exact cuf_samecall_helper _ _ _ _ _ (.bool b) _
      (by cases m <;> rfl) (by cases m <;> rfl) hok
  | .obj hf, .num n, m, path, r, rs => by
    intro _ _ hok
    exact cuf_samecall_helper _ _ _ _ _ (.num n) _
      (by cases m <;> rfl) (by cases m <;> rfl) hok
  | .obj hf, .str s, m, path, r, rs => by
    intro _ _ hok
    exact cuf_samecall_helper _ _ _ _ _ (.str s) _
      (by cases m <;> rfl) (by cases m <;> rfl) hok
  | .null, .bool b, m, path, r, rs => by
    intro _ _ hok
    exact cuf_samecall_helper _ _ _ _ _ (.bool b) _ (by cases m <;> rfl) (by cases m <;> rfl) hok
  | .null, .num n, m, path, r, rs => by
    intro _ _ hok
    exact cuf_samecall_helper _ _ _ _ _ (.num n) _ (by cases m <;> rfl) (by cases m <;> rfl) hok
  | .null, .str s, m, path, r, rs => by
    intro _ _ hok
    exact cuf_samecall_helper _ _ _ _ _ (.str s) _ (by cases m <;> rfl) (by cases m <;> rfl) hok
  | .null, .obj wf, m, path, r, rs => by
    intro _ _ hok
    exact cuf_samecall_helper _ _ _ _ _ (.obj wf) _ (by cases m <;> rfl) (by cases m <;> rfl) hok
  | .bool b, .bool b2, m, path, r, rs => by
    intro _ _ hok
    exact cuf_samecall_helper _ _ _ _ _ (.bool b2) _ (by cases m <;> rfl) (by cases m <;> rfl) hok
  | .bool b, .num n, m, path, r, rs => by
    intro _ _ hok
    exact cuf_samecall_helper _ _ _ _ _ (.num n) _ (by cases m <;> rfl) (by cases m <;> rfl) hok
  | .bool b, .str s, m, path, r, rs => by
    intro _ _ hok
    exact cuf_samecall_helper _ _ _ _ _ (.str s) _ (by cases m <;> rfl) (by cases m <;> rfl) hok
  | .bool b, .obj wf, m, path, r, rs => by
    intro _ _ hok
    exact cuf_samecall_helper _ _ _ _ _ (.obj wf) _ (by cases m <;> rfl) (by cases m <;> rfl) hok
  | .num n, .bool b2, m, path, r, rs => by
    intro _ _ hok
    exact cuf_samecall_helper _ _ _ _ _ (.bool b2) _ (by cases m <;> rfl) (by cases m <;> rfl) hok
  | .num n, .num n2, m, path, r, rs => by
    intro _ _ hok
    exact cuf_samecall_helper _ _ _ _ _ (.num n2) _ (by cases m <;> rfl) (by cases m <;> rfl) hok
  | .num n, .str s, m, path, r, rs => by
    intro _ _ hok
    exact cuf_samecall_helper _ _ _ _ _ (.str s) _ (by cases m <;> rfl) (by cases m <;> rfl) hok
  | .num n, .obj wf, m, path, r, rs => by
    intro _ _ hok
    exact cuf_samecall_helper _ _ _ _ _ (.obj wf) _ (by cases m <;> rfl) (by cases m <;> rfl) hok
  | .str s, .bool b2, m, path, r, rs => by
    intro _ _ hok
    exact cuf_samecall_helper _ _ _ _ _ (.bool b2) _ (by cases m <;> rfl) (by cases m <;> rfl) hok
  | .str s, .str s2, m, path, r, rs => by
    intro _ _ hok
    exact cuf_samecall_helper _ _ _ _ _ (.str s2) _ (by cases m <;> rfl) (by cases m <;> rfl) hok
  | .str s, .obj wf, m, path, r, rs => by
    intro _ _ hok
    exact cuf_samecall_helper _ _ _ _ _ (.obj wf) _ (by cases m <;> rfl) (by cases m <;> rfl) hok

theorem cufObjM_idem : ∀ (hs W mf : List (String × Json)) (path : List String)
    (C R : List (String × Json)) (rps : List String),
    arrayFreeF hs = true → arrayFreeF W = true →
    cufObjM hs W mf path = .ok (C, R, rps) →
    cufObjM hs (C ++ R) mf path = .ok (C, R, rps)
  | [], W, mf, path, C, R, rps => by
    intro _ _ hok
    rw [show cufObjM [] W mf path = .ok ([], W, []) from rfl] at hok
    injection hok with hp
    injection hp with h1 hrest
    injection hrest with h2 h3
    subst h1; subst h2; subst h3
    rfl
  | (k, v) :: ht, W, mf, path, C, R, rps => by
    intro ah aw hok
    have h2 : arrayFree v = true ∧ arrayFreeF ht = true := by
      simpa [arrayFreeF, Bool.and_eq_true] using ah
    rw [show cufObjM ((k, v) :: ht) W mf path =
      (do
        let (nv, rp1) ← copyUnmanagedFields v (((removeKey W k).1).getD .null)
          ((jlookup mf ("f:" ++ k)).getD .null) (path ++ [k])
        let (copyRest, remFinal, rp2) ← cufObjM ht (removeKey W k).2 mf path
        Except.ok ((k, nv) :: copyRest, remFinal, rp1 ++ rp2)) from rfl] at hok
    cases hcuf : copyUnmanagedFields v (((removeKey W k).1).getD .null)
        ((jlookup mf ("f:" ++ k)).getD .null) (path ++ [k]) with
    | error e => rw [hcuf] at hok; simp [except_bind_error] at hok
    | ok res1 =>
      obtain ⟨nv, rp1⟩ := res1
      rw [hcuf] at hok
      have hok2 : (do
          let (copyRest, remFinal, rp2) ← cufObjM ht (removeKey W k).2 mf path
          (Except.ok ((k, nv) :: copyRest, remFinal, rp1 ++ rp2) :
            Except String (List (String × Json) × List (String × Json) × List String)))
          = .ok (C, R, rps) := hok
      cases hrec : cufObjM ht (removeKey W k).2 mf path with
      | error e => rw [hrec] at hok2; simp [except_bind_error] at hok2
      | ok res2 =>
        obtain ⟨C', R', rp2⟩ := res2
        rw [hrec] at hok2
        have hok3 : (Except.ok ((k, nv) :: C', R', rp1 ++ rp2) :
            Except String (List (String × Json) × List (String × Json) × List String))
            = .ok (C, R, rps) := hok2
        injection hok3 with hp
        injection hp with h1 hrest
        injection hrest with h12 h3
        subst h1; subst h12; subst h3
        have hv2 := cuf_idem v (((removeKey W k).1).getD .null)
          ((jlookup mf ("f:" ++ k)).getD .null) (path ++ [k]) nv rp1 h2.1
          (removeKey_val_arrayFree W k aw) hcuf
        have ht2 := cufObjM_idem ht (removeKey W k).2 mf path C' R' rp2 h2.2
          (removeKey_rest_arrayFree W k aw) hrec
        show (do
          let (nv2, rp12) ← copyUnmanagedFields v
            (((removeKey (((k, nv) :: C') ++ R') k).1).getD .null)
            ((jlookup mf ("f:" ++ k)).getD .null) (path ++ [k])
          let (copyRest, remFinal, rp22) ←
            cufObjM ht (removeKey (((k, nv) :: C') ++ R') k).2 mf path
          Except.ok ((k, nv2) :: copyRest, remFinal, rp12 ++ rp22)) =
          .ok ((k, nv) :: C', R', rp1 ++ rp2)
        rw [show removeKey (((k, nv) :: C') ++ R') k = (some nv, C' ++ R') from by
          simp [removeKey]]
        simp only [Option.getD_some]
        rw [hv2]
        have step : (do
            let (copyRest, remFinal, rp22) ← cufObjM ht (C' ++ R') mf path
            (Except.ok ((k, nv) :: copyRest, remFinal, rp1 ++ rp22) :
              Except String (List (String × Json) × List (String × Json) × List String)))
            = .ok ((k, nv) :: C', R', rp1 ++ rp2) := by
          rw [ht2]
          rfl
        exact step

theorem cufObjNull_idem : ∀ (hs W : List (String × Json)) (path : List String)
    (C R : List (String × Json)) (rps : List String),
    arrayFreeF hs = true → arrayFreeF W = true →
    cufObjNull hs W path = .ok (C, R, rps) →
    cufObjNull hs (C ++ R) path = .ok (C, R, rps)
  | [], W, path, C, R, rps => by
    intro _ _ hok
    rw [show cufObjNull [] W path = .ok ([], W, []) from rfl] at hok
    injection hok with hp
    injection hp with h1 hrest
    injection hrest with h2 h3
    subst h1; subst h2; subst h3
    rfl
  | (k, v) :: ht, W, path, C, R, rps => by
    intro ah aw hok
    have h2 : arrayFree v = true ∧ arrayFreeF ht = true := by
      simpa [arrayFreeF, Bool.and_eq_true] using ah
    rw [show cufObjNull ((k, v) :: ht) W path =
      (do
        let (nv, rp1) ← copyUnmanagedFields v (((removeKey W k).1).getD .null)
          .null (path ++ [k])
        let (copyRest, remFinal, rp2) ← cufObjNull ht (removeKey W k).2 path
        Except.ok ((k, nv) :: copyRest, remFinal, rp1 ++ rp2)) from rfl] at hok
    cases hcuf : copyUnmanagedFields v (((removeKey W k).1).getD .null)
        .null (path ++ [k]) with
    | error e => rw [hcuf] at hok; simp [except_bind_error] at hok
    | ok res1 =>
      obtain ⟨nv, rp1⟩ := res1
      rw [hcuf] at hok
      have hok2 : (do
          let (copyRest, remFinal, rp2) ← cufObjNull ht (removeKey W k).2 path
          (Except.ok ((k, nv) :: copyRest, remFinal, rp1 ++ rp2) :
            Except String (List (String × Json) × List (String × Json) × List String)))
          = .ok (C, R, rps) := hok
      cases hrec : cufObjNull ht (removeKey W k).2 path with
      | error e => rw [hrec] at hok2; simp [except_bind_error] at hok2
      | ok res2 =>
        obtain ⟨C', R', rp2⟩ := res2
        rw [hrec] at hok2
        have hok3 : (Except.ok ((k, nv) :: C', R', rp1 ++ rp2) :
            Except String (List (String × Json) × List (String × Json) × List String))
            = .ok (C, R, rps) := hok2
        injection hok3 with hp
        injection hp with h1 hrest
        injection hrest with h12 h3
        subst h1; subst h12; subst h3
        have hv2 := cuf_idem v (((removeKey W k).1).getD .null)
          .null (path ++ [k]) nv rp1 h2.1
          (removeKey_val_arrayFree W k aw) hcuf
        have ht2 := cufObjNull_idem ht (removeKey W k).2 path C' R' rp2 h2.2
          (removeKey_rest_arrayFree W k aw) hrec
        show (do
          let (nv2, rp12) ← copyUnmanagedFields v
            (((removeKey (((k, nv) :: C') ++ R') k).1).getD .null)
            .null (path ++ [k])
          let (copyRest, remFinal, rp22) ←
            cufObjNull ht (removeKey (((k, nv) :: C') ++ R') k).2 path
          Except.ok ((k, nv2) :: copyRest, remFinal, rp12 ++ rp22)) =
          .ok ((k, nv) :: C', R', rp1 ++ rp2)
        rw [show removeKey (((k, nv) :: C') ++ R') k = (some nv, C' ++ R') from by
          simp [removeKey]]
        simp only [Option.getD_some]
        rw [hv2]
        have step : (do
            let (copyRest, remFinal, rp22) ← cufObjNull ht (C' ++ R') path
            (Except.ok ((k, nv) :: copyRest, remFinal, rp1 ++ rp22) :
              Except String (List (String × Json) × List (String × Json) × List String)))
            = .ok ((k, nv) :: C', R', rp1 ++ rp2) := by
          rw [ht2]
          rfl
        exact step

end

/-- C1 amended: the merger is idempotent on array-free values: when have
and want contain no JSON arrays and the merge succeeds, merging the merged
result again yields the same value and the same patch list. -/
theorem merger_idempotent_array_free (h w m : Json) (path : List String)
    (r : Json) (rs : List String)
    (ah : arrayFree h = true) (aw : arrayFree w = true)
    (hok : copyUnmanagedFields h w m path = .ok (r, rs)) :
    copyUnmanagedFields h r m path = .ok (r, rs) :=
  cuf_idem h w m path r rs ah aw hok

theorem merger_idempotent_array_free_witness :
    copyUnmanagedFields (.obj [("a", .num 1), ("b", .str "x")])
      (.obj [("a", .num 2), ("b", .str "x")]) .null [] =
      .ok (.obj [("a", .num 2), ("b", .str "x")], []) :=
  merger_idempotent_array_free (.obj [("a", .num 1), ("b", .str "x")])
    (.obj [("a", .num 2)]) .null [] (.obj [("a", .num 2), ("b", .str "x")]) []
    rfl rfl rfl
